import Mathlib

/-!
Verification of the streamline generator in `showcases/windmap.py`
(class `Streamlines`, originally by Raymond Speth).

The Python class is shallowly embedded below.  Machine floats are
modelled as real numbers; the mutable coverage mask `self.used` is
threaded explicitly through every routine that writes it; a numpy
`IndexError` is modelled by the `.indexError` value of an `Except`
result, and potential non-termination of the outer seeding loop by an
explicit fuel parameter whose exhaustion yields `.outOfFuel`.
-/

noncomputable section

/-- The coverage mask `self.used`: a boolean grid indexed (row, column). -/
abbrev Mask : Type := ℕ → ℕ → Bool

/-- Failure modes of the embedded computation: a numpy `IndexError`
raised by out-of-range array access, and exhaustion of the fuel that
bounds the outer seeding loop (`while not self.used.all()`). -/
inductive StreamErr where
  | indexError : StreamErr
  | outOfFuel : StreamErr

/-- Python `int()` applied to a float: truncation toward zero. -/
def truncInt (r : ℝ) : ℤ := if 0 ≤ r then ⌊r⌋ else ⌈r⌉

/-- Embeds `np.arctan2 y x`: the argument of the complex number `x + i y`
(numpy's convention: `arctan2 0 0 = 0`, matching `Complex.arg 0 = 0`). -/
def atan2 (y x : ℝ) : ℝ := Complex.arg ⟨x, y⟩

/-- Inputs of `Streamlines.__init__`: the 1D grid coordinate arrays
`self.x` (length `nx`) and `self.y` (length `ny`), the velocity
component arrays `self.u`, `self.v` (indexed row `j`, column `i`,
shape `ny × nx`), and the four tunable parameters. -/
structure Streamlines where
  nx : ℕ
  ny : ℕ
  x : ℕ → ℝ
  y : ℕ → ℝ
  u : ℕ → ℕ → ℝ
  v : ℕ → ℕ → ℝ
  res : ℝ
  spacing : ℕ
  maxLen : ℕ
  detectLoops : Bool

/-- Derived spacing `self.dx = (self.x[-1] - self.x[0]) / (self.x.size - 1)`. -/
def Streamlines.dx (S : Streamlines) : ℝ := (S.x (S.nx - 1) - S.x 0) / ((S.nx : ℝ) - 1)

/-- Derived spacing `self.dy = (self.y[-1] - self.y[0]) / (self.y.size - 1)`. -/
def Streamlines.dy (S : Streamlines) : ℝ := (S.y (S.ny - 1) - S.y 0) / ((S.ny : ℝ) - 1)

/-- Step length `self.dr = self.res * np.sqrt(self.dx * self.dy)`. -/
def Streamlines.dr (S : Streamlines) : ℝ := S.res * Real.sqrt (S.dx * S.dy)

/-- Resolution of a (possibly negative) numpy index against an axis of
length `n`: indices in `[0, n)` are taken as is, indices in `[-n, 0)`
wrap around, anything else raises `IndexError`. -/
def npIdx (n : ℕ) (k : ℤ) : Option ℕ :=
  if 0 ≤ k ∧ k < (n : ℤ) then some k.toNat
  else if -(n : ℤ) ≤ k ∧ k < 0 then some (k + n).toNat
  else none

/-- A single element access `a[j, i]` on a 2D array of shape
`rows × cols` backed by the function `f`. -/
def aget (rows cols : ℕ) (f : ℕ → ℕ → ℝ) (j i : ℤ) : Except StreamErr ℝ :=
  match npIdx rows j, npIdx cols i with
  | some j', some i' => .ok (f j' i')
  | _, _ => .error .indexError

/-- The slice assignment `self.used[j : j + spacing, i : i + spacing] = True`. -/
def maskUpd (m : Mask) (j i : ℤ) (s : ℕ) : Mask := fun r c =>
  m r c || (decide (j ≤ (r : ℤ)) && decide ((r : ℤ) < j + s) &&
            decide (i ≤ (c : ℤ)) && decide ((c : ℤ) < i + s))

/-- Embeds `Streamlines._interp`: bilinear interpolation of `(u, v)` at the
continuous point `(px, py)`, with the side effect of marking a
`spacing × spacing` block of the coverage mask starting at the integer
cell `(j, i)`.  Any out-of-range array read raises `IndexError` (and
then the mask is not updated, as the exception fires first). -/
def Streamlines.interp (S : Streamlines) (m : Mask) (px py : ℝ) :
    Except StreamErr (ℝ × ℝ × Mask) :=
  let iR := (px - S.x 0) / S.dx
  let ai := Int.fract iR
  let jR := (py - S.y 0) / S.dy
  let aj := Int.fract jR
  let i := truncInt iR
  let j := truncInt jR
  match aget S.ny S.nx S.u j i, aget S.ny S.nx S.u j (i + 1),
        aget S.ny S.nx S.u (j + 1) i, aget S.ny S.nx S.u (j + 1) (i + 1),
        aget S.ny S.nx S.v j i, aget S.ny S.nx S.v j (i + 1),
        aget S.ny S.nx S.v (j + 1) i, aget S.ny S.nx S.v (j + 1) (i + 1) with
  | .ok u00, .ok u01, .ok u10, .ok u11, .ok v00, .ok v01, .ok v10, .ok v11 =>
    .ok (u00 * (1 - ai) * (1 - aj) + u01 * ai * (1 - aj) +
           u10 * (1 - ai) * aj + u11 * ai * aj,
         v00 * (1 - ai) * (1 - aj) + v01 * ai * (1 - aj) +
           v10 * (1 - ai) * aj + v11 * ai * aj,
         maskUpd m j i S.spacing)
  | _, _, _, _, _, _, _, _ => .error .indexError

/-- The guard of the extension loop:
`xmin < x < xmax and ymin < y < ymax` with
`xmin = self.x[0]`, `xmax = self.x[-1]`, `ymin = self.y[0]`,
`ymax = self.y[-1]`. -/
def Streamlines.inBox (S : Streamlines) (px py : ℝ) : Prop :=
  S.x 0 < px ∧ px < S.x (S.nx - 1) ∧ S.y 0 < py ∧ py < S.y (S.ny - 1)

open Classical in
/-- Embeds `Streamlines._detectLoop`: whether the newest point of the
half-streamline lies within `0.9 * self.dr` of an earlier point. -/
def Streamlines.detectLoop (S : Streamlines) (sx sy : List ℝ) : Bool :=
  let xl := sx.getLastD 0
  let yl := sy.getLastD 0
  (sx.dropLast.zip sy.dropLast).any fun p =>
    decide (Real.sqrt ((xl - p.1) ^ 2 + (yl - p.2) ^ 2) < 0.9 * S.dr)

open Classical in
/-- The `while` loop of `Streamlines._makeHalfStreamline`, with the
loop state (current position `(px, py)`, step count `i`, accumulated
point lists `sx`, `sy`, coverage mask `m`) made explicit.  Each
iteration interpolates at the current point, steps by
`sign * dr * (cos θ, sin θ)` with `θ = arctan2(v, u)`, appends the new
position, and then applies the two `break` tests of the source in
order (loop detection every 10 steps, then `i > maxLen / 2`). -/
def Streamlines.halfLoop (S : Streamlines) (sign : ℝ) (px py : ℝ) (i : ℕ)
    (sx sy : List ℝ) (m : Mask) : Except StreamErr (List ℝ × List ℝ × Mask) :=
  if S.inBox px py then
    match S.interp m px py with
    | .error e => .error e
    | .ok (u, v, m') =>
      let θ := atan2 v u
      let px' := px + sign * S.dr * Real.cos θ
      let py' := py + sign * S.dr * Real.sin θ
      let sx' := sx ++ [px']
      let sy' := sy ++ [py']
      if S.detectLoops && ((i + 1) % 10 == 0) && S.detectLoop sx' sy' then
        .ok (sx', sy', m')
      else if h : ((i + 1 : ℕ) : ℝ) > (S.maxLen : ℝ) / 2 then
        .ok (sx', sy', m')
      else
        S.halfLoop sign px' py' (i + 1) sx' sy' m'
  else .ok (sx, sy, m)
termination_by S.maxLen / 2 + 1 - i
decreasing_by
  push_neg at h
  have h2 : ((2 * (i + 1) : ℕ) : ℝ) ≤ (S.maxLen : ℝ) := by push_cast; push_cast at h; linarith
  have h3 : 2 * (i + 1) ≤ S.maxLen := by exact_mod_cast h2
  omega

/-- Embeds `Streamlines._makeHalfStreamline`: run the extension loop from the
seed with empty accumulators and step count 0. -/
def Streamlines.makeHalfStreamline (S : Streamlines) (x0 y0 : ℝ) (sign : ℝ)
    (m : Mask) : Except StreamErr (List ℝ × List ℝ × Mask) :=
  S.halfLoop sign x0 y0 0 [] [] m

/-- Embeds `Streamlines._makeStreamline`: forward half, then backward half
(on the mask left by the forward half), then
`rx.reverse() ; ry.reverse() ; return rx + [x0] + sx, ry + [y0] + sy`. -/
def Streamlines.makeStreamline (S : Streamlines) (x0 y0 : ℝ) (m : Mask) :
    Except StreamErr ((List ℝ × List ℝ) × Mask) :=
  match S.makeHalfStreamline x0 y0 1 m with
  | .error e => .error e
  | .ok (sx, sy, m1) =>
    match S.makeHalfStreamline x0 y0 (-1) m1 with
    | .error e => .error e
    | .ok (rx, ry, m2) => .ok ((rx.reverse ++ x0 :: sx, ry.reverse ++ y0 :: sy), m2)

/-- Least `k < n` with `p k = true` (`none` if there is none). -/
def scanFirst (p : ℕ → Bool) : ℕ → Option ℕ
  | 0 => none
  | n + 1 =>
    match scanFirst p n with
    | some k => some k
    | none => if p n then some n else none

/-- First uncovered column of row `j`, scanning columns in order. -/
def rowScan (m : Mask) (nx j : ℕ) : Option ℕ := scanFirst (fun i => ! m j i) nx

/-- Embeds `np.transpose(np.logical_not(self.used).nonzero())[0]`: the first
uncovered cell `(row, column)` of the mask in numpy's row-major
(C-order) scan, or `none` when the mask is all true. -/
def Streamlines.firstUncovered (S : Streamlines) (m : Mask) : Option (ℕ × ℕ) :=
  match scanFirst (fun j => (rowScan m S.nx j).isSome) S.ny with
  | none => none
  | some j => (rowScan m S.nx j).map fun i => (j, i)

open Classical in
/-- The initial coverage mask built by `__init__`: the border ring
(`used[0] = used[-1] = used[:,0] = used[:,-1] = True`) plus every
in-range cell whose two velocity components are exactly zero. -/
def Streamlines.initMask (S : Streamlines) : Mask := fun j i =>
  decide (j = 0) || decide (j = S.ny - 1) || decide (i = 0) || decide (i = S.nx - 1) ||
    (decide (i < S.nx) && decide (j < S.ny) && decide (S.u j i = 0 ∧ S.v j i = 0))

/-- The seeding loop `while not self.used.all(): ...` of `__init__`:
pick the first uncovered cell `(j, i)` in row-major order, grow a
streamline from the grid point `(x[i], y[j])`, append it, repeat.  The
fuel parameter makes potential non-termination of the `while` loop
explicit. -/
def Streamlines.seedLoop (S : Streamlines) :
    ℕ → Mask → Except StreamErr (List (List ℝ × List ℝ) × Mask)
  | 0, _ => .error .outOfFuel
  | fuel + 1, m =>
    match S.firstUncovered m with
    | none => .ok ([], m)
    | some (j, i) =>
      match S.makeStreamline (S.x i) (S.y j) m with
      | .error e => .error e
      | .ok (sl, m') =>
        match S.seedLoop fuel m' with
        | .error e => .error e
        | .ok (sls, mf) => .ok (sl :: sls, mf)

/-- The whole construction: initial mask, then the seeding loop, with
fuel one more than the number of grid cells (enough whenever each
iteration covers at least one new cell). -/
def Streamlines.run (S : Streamlines) :
    Except StreamErr (List (List ℝ × List ℝ) × Mask) :=
  S.seedLoop (S.ny * S.nx + 1) S.initMask

/-- The `self.streamlines` attribute: the accumulated polylines. -/
def Streamlines.result (S : Streamlines) : Except StreamErr (List (List ℝ × List ℝ)) :=
  S.run.map Prod.fst

/-- Pointwise order on masks: `m ≤ m'` (no true cell has been reset). -/
def maskLe (m m' : Mask) : Prop := ∀ r c, m r c = true → m' r c = true

/-- Number of covered (true) cells of the mask. -/
def coveredCount (S : Streamlines) (m : Mask) : ℕ :=
  ((Finset.range S.ny ×ˢ Finset.range S.nx).filter fun p => m p.1 p.2).card

/-- Number of uncovered (false) cells of the mask. -/
def uncoveredCount (S : Streamlines) (m : Mask) : ℕ :=
  ((Finset.range S.ny ×ˢ Finset.range S.nx).filter fun p => ¬ m p.1 p.2).card

/-- Construction preconditions of the spec: shape at least 2×2 and
grid coordinates monotonic (increasing) and regularly spaced, so that
`x k = x 0 + k * dx` with `dx > 0` (and likewise for `y`). -/
def RegularGrid (S : Streamlines) : Prop :=
  2 ≤ S.nx ∧ 2 ≤ S.ny ∧ 0 < S.dx ∧ 0 < S.dy ∧
    (∀ k, k < S.nx → S.x k = S.x 0 + k * S.dx) ∧
    (∀ k, k < S.ny → S.y k = S.y 0 + k * S.dy)

/-- Weaker precondition: shape at least 2×2 and strictly increasing
grid coordinates (no regular-spacing requirement). -/
def MonoGrid (S : Streamlines) : Prop :=
  2 ≤ S.nx ∧ 2 ≤ S.ny ∧
    (∀ k l, k < l → l < S.nx → S.x k < S.x l) ∧
    (∀ k l, k < l → l < S.ny → S.y k < S.y l)

/-- All points of the two coordinate lists except the last lie
strictly inside the bounding box (the guard invariant of the
half-streamline accumulators). -/
def PinL (S : Streamlines) (l1 l2 : List ℝ) : Prop :=
  ∀ k, k + 1 < l1.length → S.inBox (l1.getD k 0) (l2.getD k 0)

/-- Boundary exclusion as claimed: every point of every output
streamline lies strictly inside the grid's bounding box. -/
def BoundaryExclusion (S : Streamlines) : Prop :=
  ∀ sls, S.result = .ok sls → ∀ sl ∈ sls, ∀ k, k < sl.1.length →
    S.inBox (sl.1.getD k 0) (sl.2.getD k 0)


/-- A concrete 4×4 demonstration configuration: grid `x = y = [0,1,2,3]`
(`dx = dy = 1`), uniform velocity field `(u, v) = (1, 0)`, `res = 1`
(so `dr = 1`), loop detection off; `spacing` and `maxLen` variable. -/
def demoCfg (sp mL : ℕ) : Streamlines where
  nx := 4
  ny := 4
  x := fun k => (k : ℝ)
  y := fun k => (k : ℝ)
  u := fun _ _ => 1
  v := fun _ _ => 0
  res := 1
  spacing := sp
  maxLen := mL
  detectLoops := false

/-- What the initial mask of `demoCfg` evaluates to: the border ring
(the uniform field never vanishes, so no zero-velocity cell is marked). -/
def borderMask : Mask := fun j i =>
  decide (j = 0) || decide (j = 3) || decide (i = 0) || decide (i = 3)


/-! ### Scan lemmas: `firstUncovered` finds the row-major-first uncovered cell -/

lemma scanFirst_eq_none {p : ℕ → Bool} : ∀ {n : ℕ}, scanFirst p n = none ↔ ∀ k, k < n → p k = false := by
  intro n
  induction n with
  | zero => simp [scanFirst]
  | succ n ih =>
    constructor
    · intro h k hk
      simp only [scanFirst] at h
      cases hs : scanFirst p n with
      | some k' => rw [hs] at h; exact absurd h (by simp)
      | none =>
        rw [hs] at h
        have hall := ih.mp hs
        rcases Nat.lt_succ_iff_lt_or_eq.mp hk with h' | rfl
        · exact hall k h'
        · by_cases hp : p k = true
          · rw [if_pos hp] at h; exact absurd h (by simp)
          · simpa using hp
    · intro hall
      simp only [scanFirst]
      have hn : scanFirst p n = none := ih.mpr fun k hk => hall k (Nat.lt_succ_of_lt hk)
      rw [hn, if_neg]
      simp [hall n (Nat.lt_succ_self n)]

lemma scanFirst_eq_some {p : ℕ → Bool} : ∀ {n k : ℕ}, scanFirst p n = some k →
    k < n ∧ p k = true ∧ ∀ l, l < k → p l = false := by
  intro n
  induction n with
  | zero => intro k h; simp [scanFirst] at h
  | succ n ih =>
    intro k h
    simp only [scanFirst] at h
    cases hs : scanFirst p n with
    | some k' =>
      rw [hs] at h
      obtain rfl : k' = k := by simpa using h
      obtain ⟨h1, h2, h3⟩ := ih hs
      exact ⟨Nat.lt_succ_of_lt h1, h2, h3⟩
    | none =>
      rw [hs] at h
      by_cases hp : p n = true
      · rw [if_pos hp] at h
        obtain rfl : n = k := by simpa using h
        exact ⟨Nat.lt_succ_self n, hp, fun l hl => (scanFirst_eq_none.mp hs) l hl⟩
      · rw [if_neg hp] at h; exact absurd h (by simp)

lemma firstUncovered_none_iff {S : Streamlines} {m : Mask} :
    S.firstUncovered m = none ↔ ∀ j, j < S.ny → ∀ i, i < S.nx → m j i = true := by
  unfold Streamlines.firstUncovered
  cases hs : scanFirst (fun j => (rowScan m S.nx j).isSome) S.ny with
  | none =>
    constructor
    · intro _ j hj i hi
      have h1 := scanFirst_eq_none.mp hs j hj
      have hrn : rowScan m S.nx j = none := by
        cases hr : rowScan m S.nx j with
        | none => rfl
        | some k => rw [hr] at h1; simp at h1
      have h2 := scanFirst_eq_none.mp hrn i hi
      simpa using h2
    · intro _; rfl
  | some j =>
    obtain ⟨hjlt, hsome, _⟩ := scanFirst_eq_some hs
    obtain ⟨i, hi⟩ := Option.isSome_iff_exists.mp hsome
    obtain ⟨hilt, hpt, _⟩ := scanFirst_eq_some hi
    constructor
    · intro h
      dsimp only at h
      rw [hi] at h
      exact absurd h (by simp)
    · intro hall
      have := hall j hjlt i hilt
      rw [this] at hpt
      exact absurd hpt (by simp)

lemma firstUncovered_some {S : Streamlines} {m : Mask} {j i : ℕ}
    (h : S.firstUncovered m = some (j, i)) :
    j < S.ny ∧ i < S.nx ∧ m j i = false ∧
      ∀ j' i', j' < S.ny → i' < S.nx → m j' i' = false → j < j' ∨ (j = j' ∧ i ≤ i') := by
  unfold Streamlines.firstUncovered at h
  cases hs : scanFirst (fun j => (rowScan m S.nx j).isSome) S.ny with
  | none => rw [hs] at h; exact absurd h (by simp)
  | some j0 =>
    rw [hs] at h
    obtain ⟨hj0, hsome, hminrow⟩ := scanFirst_eq_some hs
    cases hr : rowScan m S.nx j0 with
    | none => rw [hr] at hsome; exact absurd hsome (by simp)
    | some i0 =>
      dsimp only at h
      rw [hr] at h
      simp only [Option.map_some', Option.some.injEq, Prod.mk.injEq] at h
      obtain ⟨rfl, rfl⟩ := h
      obtain ⟨hi0, hpt, hmincol⟩ := scanFirst_eq_some hr
      refine ⟨hj0, hi0, by simpa using hpt, ?_⟩
      intro j' i' hj' hi' hfalse
      rcases lt_trichotomy j0 j' with hlt | rfl | hgt
      · exact Or.inl hlt
      · refine Or.inr ⟨rfl, ?_⟩
        by_contra hcon
        have hilt : i' < i0 := by omega
        have := hmincol i' hilt
        rw [hfalse] at this
        exact absurd this (by simp)
      · exfalso
        have hrow := hminrow j' hgt
        have hrn : rowScan m S.nx j' = none := by
          cases hr' : rowScan m S.nx j' with
          | none => rfl
          | some k => rw [hr'] at hrow; simp at hrow
        have := scanFirst_eq_none.mp hrn i' hi'
        rw [hfalse] at this
        exact absurd this (by simp)

/-! ### Mask order and cell counts -/

lemma maskLe_refl (m : Mask) : maskLe m m := fun _ _ h => h

lemma maskLe_trans {a b c : Mask} (h1 : maskLe a b) (h2 : maskLe b c) : maskLe a c :=
  fun r q h => h2 r q (h1 r q h)

lemma maskLe_upd (m : Mask) (j i : ℤ) (s : ℕ) : maskLe m (maskUpd m j i s) := by
  intro r c h
  unfold maskUpd
  rw [h]
  simp

lemma coveredCount_mono {S : Streamlines} {m m' : Mask} (h : maskLe m m') :
    coveredCount S m ≤ coveredCount S m' := by
  apply Finset.card_le_card
  intro p hp
  rw [Finset.mem_filter] at hp ⊢
  exact ⟨hp.1, h p.1 p.2 hp.2⟩

lemma coveredCount_lt {S : Streamlines} {m m' : Mask} (h : maskLe m m') {j i : ℕ}
    (hj : j < S.ny) (hi : i < S.nx) (h0 : m j i = false) (h1 : m' j i = true) :
    coveredCount S m < coveredCount S m' := by
  apply Finset.card_lt_card
  rw [Finset.ssubset_iff_of_subset]
  · refine ⟨(j, i), ?_, ?_⟩
    · rw [Finset.mem_filter, Finset.mem_product, Finset.mem_range, Finset.mem_range]
      exact ⟨⟨hj, hi⟩, h1⟩
    · rw [Finset.mem_filter]
      rintro ⟨-, hcov⟩
      rw [h0] at hcov
      exact absurd hcov (by simp)
  · intro p hp
    rw [Finset.mem_filter] at hp ⊢
    exact ⟨hp.1, h p.1 p.2 hp.2⟩

lemma uncoveredCount_lt {S : Streamlines} {m m' : Mask} (h : maskLe m m') {j i : ℕ}
    (hj : j < S.ny) (hi : i < S.nx) (h0 : m j i = false) (h1 : m' j i = true) :
    uncoveredCount S m' < uncoveredCount S m := by
  apply Finset.card_lt_card
  rw [Finset.ssubset_iff_of_subset]
  · refine ⟨(j, i), ?_, ?_⟩
    · rw [Finset.mem_filter, Finset.mem_product, Finset.mem_range, Finset.mem_range]
      exact ⟨⟨hj, hi⟩, by simp [h0]⟩
    · rw [Finset.mem_filter]
      rintro ⟨-, hunc⟩
      exact hunc h1
  · intro p hp
    rw [Finset.mem_filter] at hp ⊢
    refine ⟨hp.1, fun hcov => hp.2 (h p.1 p.2 ?_)⟩
    cases hmp : m p.1 p.2 with
    | true => rfl
    | false => exact absurd hmp (by intro hh; exact hp.2 (absurd hcov (by simp [hh]))) 

lemma uncoveredCount_le {S : Streamlines} (m : Mask) :
    uncoveredCount S m ≤ S.ny * S.nx := by
  calc uncoveredCount S m ≤ (Finset.range S.ny ×ˢ Finset.range S.nx).card :=
        Finset.card_filter_le _ _
    _ = S.ny * S.nx := by rw [Finset.card_product, Finset.card_range, Finset.card_range]


/-! ### Bilinear interpolation: index bounds and exact evaluation -/

lemma aget_ok {rows cols : ℕ} (f : ℕ → ℕ → ℝ) {j i : ℕ} (hj : j < rows) (hi : i < cols) :
    aget rows cols f (j : ℤ) (i : ℤ) = .ok (f j i) := by
  unfold aget npIdx
  rw [if_pos ⟨Int.natCast_nonneg j, by exact_mod_cast hj⟩,
      if_pos ⟨Int.natCast_nonneg i, by exact_mod_cast hi⟩]
  simp

lemma truncInt_natCast (a : ℕ) : truncInt (a : ℝ) = (a : ℤ) := by
  unfold truncInt
  rw [if_pos (by positivity)]
  exact_mod_cast Int.floor_natCast a

lemma interp_mask {S : Streamlines} {m : Mask} {px py : ℝ} {u v : ℝ} {m' : Mask}
    (h : S.interp m px py = .ok (u, v, m')) :
    m' = maskUpd m (truncInt ((py - S.y 0) / S.dy)) (truncInt ((px - S.x 0) / S.dx)) S.spacing := by
  unfold Streamlines.interp at h
  dsimp only at h
  split at h
  · simp only [Except.ok.injEq, Prod.mk.injEq] at h
    exact h.2.2.symm
  · exact absurd h (by simp)

lemma interp_mask_mono {S : Streamlines} {m : Mask} {px py : ℝ} {u v : ℝ} {m' : Mask}
    (h : S.interp m px py = .ok (u, v, m')) : maskLe m m' := by
  rw [interp_mask h]
  exact maskLe_upd _ _ _ _

/-- On one regularly spaced increasing axis, a coordinate strictly
between the first and last grid value yields a fractional index in
`(0, n-1)`, whose Python `int()` is its floor, with floor + 1 at most
the last axis index. -/
lemma axis_idx {n : ℕ} {f : ℕ → ℝ} {d p : ℝ} (hd : 0 < d) (hn : 2 ≤ n)
    (hreg : ∀ k, k < n → f k = f 0 + k * d) (h1 : f 0 < p) (h2 : p < f (n - 1)) :
    truncInt ((p - f 0) / d) = ((⌊(p - f 0) / d⌋.toNat : ℕ) : ℤ) ∧
      ⌊(p - f 0) / d⌋.toNat + 1 ≤ n - 1 := by
  have hr0 : 0 < (p - f 0) / d := div_pos (by linarith) hd
  have hc : ((n - 1 : ℕ) : ℝ) = (n : ℝ) - 1 := by
    rw [Nat.cast_sub (by omega), Nat.cast_one]
  have hfe : f (n - 1) = f 0 + ((n - 1 : ℕ) : ℝ) * d := hreg _ (by omega)
  have hrlt : (p - f 0) / d < (n : ℝ) - 1 := by
    rw [div_lt_iff₀ hd]
    rw [hfe, hc] at h2
    linarith
  have hfl0 : 0 ≤ ⌊(p - f 0) / d⌋ := Int.floor_nonneg.mpr hr0.le
  have hfl : ⌊(p - f 0) / d⌋ < (n : ℤ) - 1 := by
    have h3 : (p - f 0) / d < (((n : ℤ) - 1 : ℤ) : ℝ) := by push_cast; linarith
    exact Int.floor_lt.mpr h3
  refine ⟨?_, ?_⟩
  · unfold truncInt
    rw [if_pos hr0.le]
    exact (Int.toNat_of_nonneg hfl0).symm
  · omega

/-- Evaluating `_interp` at a point strictly inside the bounding box of a valid
grid: every array access is in range, the returned pair is the
area-weighted sum of the four surrounding samples at integer indices
`(⌊jR⌋, ⌊iR⌋)`, and the mask gains the `spacing × spacing` block there. -/
lemma interp_eval (S : Streamlines) (hS : RegularGrid S) (m : Mask) (px py : ℝ)
    (hin : S.inBox px py) :
    S.interp m px py = .ok
      (S.u (⌊(py - S.y 0) / S.dy⌋.toNat) (⌊(px - S.x 0) / S.dx⌋.toNat) *
          (1 - Int.fract ((px - S.x 0) / S.dx)) * (1 - Int.fract ((py - S.y 0) / S.dy)) +
        S.u (⌊(py - S.y 0) / S.dy⌋.toNat) (⌊(px - S.x 0) / S.dx⌋.toNat + 1) *
          Int.fract ((px - S.x 0) / S.dx) * (1 - Int.fract ((py - S.y 0) / S.dy)) +
        S.u (⌊(py - S.y 0) / S.dy⌋.toNat + 1) (⌊(px - S.x 0) / S.dx⌋.toNat) *
          (1 - Int.fract ((px - S.x 0) / S.dx)) * Int.fract ((py - S.y 0) / S.dy) +
        S.u (⌊(py - S.y 0) / S.dy⌋.toNat + 1) (⌊(px - S.x 0) / S.dx⌋.toNat + 1) *
          Int.fract ((px - S.x 0) / S.dx) * Int.fract ((py - S.y 0) / S.dy),
       S.v (⌊(py - S.y 0) / S.dy⌋.toNat) (⌊(px - S.x 0) / S.dx⌋.toNat) *
          (1 - Int.fract ((px - S.x 0) / S.dx)) * (1 - Int.fract ((py - S.y 0) / S.dy)) +
        S.v (⌊(py - S.y 0) / S.dy⌋.toNat) (⌊(px - S.x 0) / S.dx⌋.toNat + 1) *
          Int.fract ((px - S.x 0) / S.dx) * (1 - Int.fract ((py - S.y 0) / S.dy)) +
        S.v (⌊(py - S.y 0) / S.dy⌋.toNat + 1) (⌊(px - S.x 0) / S.dx⌋.toNat) *
          (1 - Int.fract ((px - S.x 0) / S.dx)) * Int.fract ((py - S.y 0) / S.dy) +
        S.v (⌊(py - S.y 0) / S.dy⌋.toNat + 1) (⌊(px - S.x 0) / S.dx⌋.toNat + 1) *
          Int.fract ((px - S.x 0) / S.dx) * Int.fract ((py - S.y 0) / S.dy),
       maskUpd m ((⌊(py - S.y 0) / S.dy⌋.toNat : ℕ) : ℤ)
         ((⌊(px - S.x 0) / S.dx⌋.toNat : ℕ) : ℤ) S.spacing) := by
  obtain ⟨hnx, hny, hdx, hdy, hx, hy⟩ := hS
  obtain ⟨h1, h2, h3, h4⟩ := hin
  obtain ⟨hti, hib⟩ := axis_idx hdx hnx hx h1 h2
  obtain ⟨htj, hjb⟩ := axis_idx hdy hny hy h3 h4
  have hiN0 : ⌊(px - S.x 0) / S.dx⌋.toNat < S.nx := by omega
  have hiN1 : ⌊(px - S.x 0) / S.dx⌋.toNat + 1 < S.nx := by omega
  have hjN0 : ⌊(py - S.y 0) / S.dy⌋.toNat < S.ny := by omega
  have hjN1 : ⌊(py - S.y 0) / S.dy⌋.toNat + 1 < S.ny := by omega
  have e1 : ((⌊(px - S.x 0) / S.dx⌋.toNat : ℕ) : ℤ) + 1 =
      ((⌊(px - S.x 0) / S.dx⌋.toNat + 1 : ℕ) : ℤ) := by push_cast; ring
  have e2 : ((⌊(py - S.y 0) / S.dy⌋.toNat : ℕ) : ℤ) + 1 =
      ((⌊(py - S.y 0) / S.dy⌋.toNat + 1 : ℕ) : ℤ) := by push_cast; ring
  have g1 := aget_ok S.u hjN0 hiN0
  have g2 := aget_ok S.u hjN0 hiN1
  have g3 := aget_ok S.u hjN1 hiN0
  have g4 := aget_ok S.u hjN1 hiN1
  have g5 := aget_ok S.v hjN0 hiN0
  have g6 := aget_ok S.v hjN0 hiN1
  have g7 := aget_ok S.v hjN1 hiN0
  have g8 := aget_ok S.v hjN1 hiN1
  simp only [Streamlines.interp, hti, htj, e1, e2, g1, g2, g3, g4, g5, g6, g7, g8]

/-! ### Branch equations for the extension loop -/

lemma halfLoop_guard_false {S : Streamlines} {sign px py : ℝ} {i : ℕ} {sx sy : List ℝ} {m : Mask}
    (h : ¬ S.inBox px py) :
    S.halfLoop sign px py i sx sy m = .ok (sx, sy, m) := by
  rw [Streamlines.halfLoop, if_neg h]

lemma halfLoop_interp_error {S : Streamlines} {sign px py : ℝ} {i : ℕ} {sx sy : List ℝ}
    {m : Mask} {e : StreamErr} (hbox : S.inBox px py) (herr : S.interp m px py = .error e) :
    S.halfLoop sign px py i sx sy m = .error e := by
  rw [Streamlines.halfLoop, if_pos hbox, herr]

lemma halfLoop_step_detect {S : Streamlines} {sign px py : ℝ} {i : ℕ} {sx sy : List ℝ}
    {m : Mask} {u v : ℝ} {m' : Mask} (hbox : S.inBox px py)
    (hok : S.interp m px py = .ok (u, v, m'))
    (hdet : (S.detectLoops && ((i + 1) % 10 == 0) &&
      S.detectLoop (sx ++ [px + sign * S.dr * Real.cos (atan2 v u)])
        (sy ++ [py + sign * S.dr * Real.sin (atan2 v u)])) = true) :
    S.halfLoop sign px py i sx sy m =
      .ok (sx ++ [px + sign * S.dr * Real.cos (atan2 v u)],
           sy ++ [py + sign * S.dr * Real.sin (atan2 v u)], m') := by
  rw [Streamlines.halfLoop, if_pos hbox, hok]
  dsimp only
  rw [if_pos hdet]

lemma halfLoop_step_break {S : Streamlines} {sign px py : ℝ} {i : ℕ} {sx sy : List ℝ}
    {m : Mask} {u v : ℝ} {m' : Mask} (hbox : S.inBox px py)
    (hok : S.interp m px py = .ok (u, v, m'))
    (hdet : ¬ (S.detectLoops && ((i + 1) % 10 == 0) &&
      S.detectLoop (sx ++ [px + sign * S.dr * Real.cos (atan2 v u)])
        (sy ++ [py + sign * S.dr * Real.sin (atan2 v u)])) = true)
    (hbrk : ((i + 1 : ℕ) : ℝ) > (S.maxLen : ℝ) / 2) :
    S.halfLoop sign px py i sx sy m =
      .ok (sx ++ [px + sign * S.dr * Real.cos (atan2 v u)],
           sy ++ [py + sign * S.dr * Real.sin (atan2 v u)], m') := by
  rw [Streamlines.halfLoop, if_pos hbox, hok]
  dsimp only
  rw [if_neg hdet, dif_pos hbrk]

lemma halfLoop_step_rec {S : Streamlines} {sign px py : ℝ} {i : ℕ} {sx sy : List ℝ}
    {m : Mask} {u v : ℝ} {m' : Mask} (hbox : S.inBox px py)
    (hok : S.interp m px py = .ok (u, v, m'))
    (hdet : ¬ (S.detectLoops && ((i + 1) % 10 == 0) &&
      S.detectLoop (sx ++ [px + sign * S.dr * Real.cos (atan2 v u)])
        (sy ++ [py + sign * S.dr * Real.sin (atan2 v u)])) = true)
    (hbrk : ¬ ((i + 1 : ℕ) : ℝ) > (S.maxLen : ℝ) / 2) :
    S.halfLoop sign px py i sx sy m =
      S.halfLoop sign (px + sign * S.dr * Real.cos (atan2 v u))
        (py + sign * S.dr * Real.sin (atan2 v u)) (i + 1)
        (sx ++ [px + sign * S.dr * Real.cos (atan2 v u)])
        (sy ++ [py + sign * S.dr * Real.sin (atan2 v u)]) m' := by
  rw [Streamlines.halfLoop, if_pos hbox, hok]
  dsimp only
  rw [if_neg hdet, dif_neg hbrk]


/-! ### Global properties of the extension loop -/

lemma halfLoop_mask_mono {S : Streamlines} {sign : ℝ} :
    ∀ (px py : ℝ) (i : ℕ) (sx sy : List ℝ) (m : Mask) {ox oy : List ℝ} {mo : Mask},
      S.halfLoop sign px py i sx sy m = .ok (ox, oy, mo) → maskLe m mo := by
  intro px py i sx sy m
  induction px, py, i, sx, sy, m using Streamlines.halfLoop.induct S sign with
  | case1 px py i sx sy m hbox e herr =>
    intro ox oy mo h
    rw [halfLoop_interp_error hbox herr] at h
    exact absurd h (by simp)
  | case2 px py i sx sy m hbox u v m' hok =>
    rename_i θ px' py' sx' sy' hdet
    intro ox oy mo h
    rw [halfLoop_step_detect hbox hok hdet] at h
    simp only [Except.ok.injEq, Prod.mk.injEq] at h
    rw [← h.2.2]
    exact interp_mask_mono hok
  | case3 px py i sx sy m hbox u v m' hok =>
    rename_i θ px' py' sx' sy' hdet hbrk
    intro ox oy mo h
    rw [halfLoop_step_break hbox hok hdet hbrk] at h
    simp only [Except.ok.injEq, Prod.mk.injEq] at h
    rw [← h.2.2]
    exact interp_mask_mono hok
  | case4 px py i sx sy m hbox u v m' hok =>
    rename_i θ px' py' sx' sy' hdet hbrk ih
    intro ox oy mo h
    rw [halfLoop_step_rec hbox hok hdet hbrk] at h
    exact maskLe_trans (interp_mask_mono hok) (ih h)
  | case5 px py i sx sy m hbox =>
    intro ox oy mo h
    rw [halfLoop_guard_false hbox] at h
    simp only [Except.ok.injEq, Prod.mk.injEq] at h
    rw [← h.2.2]
    exact maskLe_refl m

lemma interp_ok_of_box {S : Streamlines} (hS : RegularGrid S) (m : Mask) (px py : ℝ)
    (hin : S.inBox px py) : ∃ u v m', S.interp m px py = .ok (u, v, m') :=
  ⟨_, _, _, interp_eval S hS m px py hin⟩

lemma halfLoop_total {S : Streamlines} (hS : RegularGrid S) {sign : ℝ} :
    ∀ (px py : ℝ) (i : ℕ) (sx sy : List ℝ) (m : Mask),
      ∃ ox oy mo, S.halfLoop sign px py i sx sy m = .ok (ox, oy, mo) := by
  intro px py i sx sy m
  induction px, py, i, sx, sy, m using Streamlines.halfLoop.induct S sign with
  | case1 px py i sx sy m hbox e herr =>
    obtain ⟨u, v, m', hok⟩ := interp_ok_of_box hS m px py hbox
    rw [hok] at herr
    exact absurd herr (by simp)
  | case2 px py i sx sy m hbox u v m' hok =>
    rename_i θ px' py' sx' sy' hdet
    exact ⟨_, _, _, halfLoop_step_detect hbox hok hdet⟩
  | case3 px py i sx sy m hbox u v m' hok =>
    rename_i θ px' py' sx' sy' hdet hbrk
    exact ⟨_, _, _, halfLoop_step_break hbox hok hdet hbrk⟩
  | case4 px py i sx sy m hbox u v m' hok =>
    rename_i θ px' py' sx' sy' hdet hbrk ih
    obtain ⟨ox, oy, mo, hrun⟩ := ih
    exact ⟨ox, oy, mo, (halfLoop_step_rec hbox hok hdet hbrk).trans hrun⟩
  | case5 px py i sx sy m hbox =>
    exact ⟨_, _, _, halfLoop_guard_false hbox⟩

lemma halfLoop_append {S : Streamlines} {sign : ℝ} :
    ∀ (px py : ℝ) (i : ℕ) (sx sy : List ℝ) (m : Mask) {ox oy : List ℝ} {mo : Mask},
      S.halfLoop sign px py i sx sy m = .ok (ox, oy, mo) →
      ∃ tx ty, ox = sx ++ tx ∧ oy = sy ++ ty ∧ tx.length = ty.length ∧
        (S.inBox px py → tx ≠ []) := by
  intro px py i sx sy m
  induction px, py, i, sx, sy, m using Streamlines.halfLoop.induct S sign with
  | case1 px py i sx sy m hbox e herr =>
    intro ox oy mo h
    rw [halfLoop_interp_error hbox herr] at h
    exact absurd h (by simp)
  | case2 px py i sx sy m hbox u v m' hok =>
    rename_i θ px' py' sx' sy' hdet
    intro ox oy mo h
    rw [halfLoop_step_detect hbox hok hdet] at h
    simp only [Except.ok.injEq, Prod.mk.injEq] at h
    exact ⟨[px + sign * S.dr * Real.cos (atan2 v u)],
      [py + sign * S.dr * Real.sin (atan2 v u)], h.1.symm, h.2.1.symm, rfl, fun _ => by simp⟩
  | case3 px py i sx sy m hbox u v m' hok =>
    rename_i θ px' py' sx' sy' hdet hbrk
    intro ox oy mo h
    rw [halfLoop_step_break hbox hok hdet hbrk] at h
    simp only [Except.ok.injEq, Prod.mk.injEq] at h
    exact ⟨[px + sign * S.dr * Real.cos (atan2 v u)],
      [py + sign * S.dr * Real.sin (atan2 v u)], h.1.symm, h.2.1.symm, rfl, fun _ => by simp⟩
  | case4 px py i sx sy m hbox u v m' hok =>
    rename_i θ px' py' sx' sy' hdet hbrk ih
    intro ox oy mo h
    rw [halfLoop_step_rec hbox hok hdet hbrk] at h
    obtain ⟨tx, ty, hox, hoy, hlen, -⟩ := ih h
    refine ⟨(px + sign * S.dr * Real.cos (atan2 v u)) :: tx,
      (py + sign * S.dr * Real.sin (atan2 v u)) :: ty, ?_, ?_, by simp [hlen], fun _ => by simp⟩
    · rw [hox, List.append_assoc]
      rfl
    · rw [hoy, List.append_assoc]
      rfl
  | case5 px py i sx sy m hbox =>
    intro ox oy mo h
    rw [halfLoop_guard_false hbox] at h
    simp only [Except.ok.injEq, Prod.mk.injEq] at h
    exact ⟨[], [], by simp [h.1.symm], by simp [h.2.1.symm], rfl, fun hb => absurd hb hbox⟩

lemma halfLoop_len {S : Streamlines} {sign : ℝ} :
    ∀ (px py : ℝ) (i : ℕ) (sx sy : List ℝ) (m : Mask) {ox oy : List ℝ} {mo : Mask},
      S.halfLoop sign px py i sx sy m = .ok (ox, oy, mo) → i ≤ S.maxLen / 2 →
      ox.length ≤ sx.length + (S.maxLen / 2 + 1 - i) := by
  intro px py i sx sy m
  induction px, py, i, sx, sy, m using Streamlines.halfLoop.induct S sign with
  | case1 px py i sx sy m hbox e herr =>
    intro ox oy mo h hle
    rw [halfLoop_interp_error hbox herr] at h
    exact absurd h (by simp)
  | case2 px py i sx sy m hbox u v m' hok =>
    rename_i θ px' py' sx' sy' hdet
    intro ox oy mo h hle
    rw [halfLoop_step_detect hbox hok hdet] at h
    simp only [Except.ok.injEq, Prod.mk.injEq] at h
    rw [← h.1]
    simp only [List.length_append, List.length_singleton]
    omega
  | case3 px py i sx sy m hbox u v m' hok =>
    rename_i θ px' py' sx' sy' hdet hbrk
    intro ox oy mo h hle
    rw [halfLoop_step_break hbox hok hdet hbrk] at h
    simp only [Except.ok.injEq, Prod.mk.injEq] at h
    rw [← h.1]
    simp only [List.length_append, List.length_singleton]
    omega
  | case4 px py i sx sy m hbox u v m' hok =>
    rename_i θ px' py' sx' sy' hdet hbrk ih
    intro ox oy mo h hle
    rw [halfLoop_step_rec hbox hok hdet hbrk] at h
    have hb2 : ((i + 1 : ℕ) : ℝ) ≤ (S.maxLen : ℝ) / 2 := not_lt.mp hbrk
    have hb3 : ((2 * (i + 1) : ℕ) : ℝ) ≤ (S.maxLen : ℝ) := by push_cast; push_cast at hb2; linarith
    have hb4 : 2 * (i + 1) ≤ S.maxLen := by exact_mod_cast hb3
    have hle' : i + 1 ≤ S.maxLen / 2 := by omega
    have hrec : ox.length ≤ (sx ++ [px + sign * S.dr * Real.cos (atan2 v u)]).length +
        (S.maxLen / 2 + 1 - (i + 1)) := ih h hle'
    simp only [List.length_append, List.length_singleton] at hrec
    omega
  | case5 px py i sx sy m hbox =>
    intro ox oy mo h hle
    rw [halfLoop_guard_false hbox] at h
    simp only [Except.ok.injEq, Prod.mk.injEq] at h
    rw [← h.1]
    omega

lemma halfLoop_ok_after_interp {S : Streamlines} (hS : RegularGrid S) {sign px py : ℝ}
    {i : ℕ} {sx sy : List ℝ} {m : Mask} {u v : ℝ} {m1 : Mask} (hbox : S.inBox px py)
    (hok : S.interp m px py = .ok (u, v, m1)) :
    ∃ ox oy mo, S.halfLoop sign px py i sx sy m = .ok (ox, oy, mo) ∧ maskLe m1 mo := by
  by_cases hdet : (S.detectLoops && ((i + 1) % 10 == 0) &&
      S.detectLoop (sx ++ [px + sign * S.dr * Real.cos (atan2 v u)])
        (sy ++ [py + sign * S.dr * Real.sin (atan2 v u)])) = true
  · exact ⟨_, _, m1, halfLoop_step_detect hbox hok hdet, maskLe_refl m1⟩
  · by_cases hbrk : ((i + 1 : ℕ) : ℝ) > (S.maxLen : ℝ) / 2
    · exact ⟨_, _, m1, halfLoop_step_break hbox hok hdet hbrk, maskLe_refl m1⟩
    · obtain ⟨ox, oy, mo, hrun⟩ := halfLoop_total hS _ _ _ _ _ _
      refine ⟨ox, oy, mo, ?_, halfLoop_mask_mono _ _ _ _ _ _ hrun⟩
      rw [halfLoop_step_rec hbox hok hdet hbrk]
      exact hrun


/-! ### The guard invariant: all accumulated points but the last are inside -/

lemma PinL_extend {S : Streamlines} {sx sy : List ℝ} {px py px' py' : ℝ}
    (hlen : sx.length = sy.length) (hpin : PinL S sx sy)
    (hlast : sx = [] ∨ (sx.getLast? = some px ∧ sy.getLast? = some py))
    (hbox : S.inBox px py) :
    PinL S (sx ++ [px']) (sy ++ [py']) := by
  intro k hk
  rw [List.length_append, List.length_singleton] at hk
  have hk2 : k < sx.length := by omega
  rw [List.getD_append _ _ _ _ hk2, List.getD_append _ _ _ _ (by omega : k < sy.length)]
  rcases Nat.lt_or_ge (k + 1) sx.length with hlt | hge
  · exact hpin k hlt
  · have hkeq : k = sx.length - 1 := by omega
    have hne : sx ≠ [] := by
      intro he
      rw [he] at hk2
      simp at hk2
    rcases hlast with he | ⟨hlx, hly⟩
    · exact absurd he hne
    · have hne' : sy ≠ [] := by
        intro he
        rw [he] at hlen
        simp at hlen
        rw [hlen] at hk2
        simp at hk2
      have e1 : sx.getD k 0 = px := by
        rw [List.getD_eq_getD_get?, List.get?_eq_getElem?, hkeq, ← List.getLast?_eq_getElem?, hlx]
        rfl
      have e2 : sy.getD k 0 = py := by
        rw [List.getD_eq_getD_get?, List.get?_eq_getElem?, show k = sy.length - 1 by omega,
          ← List.getLast?_eq_getElem?, hly]
        rfl
      rw [e1, e2]
      exact hbox

lemma halfLoop_pin {S : Streamlines} {sign : ℝ} :
    ∀ (px py : ℝ) (i : ℕ) (sx sy : List ℝ) (m : Mask) {ox oy : List ℝ} {mo : Mask},
      S.halfLoop sign px py i sx sy m = .ok (ox, oy, mo) →
      sx.length = sy.length → PinL S sx sy →
      (sx = [] ∨ (sx.getLast? = some px ∧ sy.getLast? = some py)) →
      PinL S ox oy ∧ ox.length = oy.length := by
  intro px py i sx sy m
  induction px, py, i, sx, sy, m using Streamlines.halfLoop.induct S sign with
  | case1 px py i sx sy m hbox e herr =>
    intro ox oy mo h hlen hpin hlast
    rw [halfLoop_interp_error hbox herr] at h
    exact absurd h (by simp)
  | case2 px py i sx sy m hbox u v m' hok =>
    rename_i θ px' py' sx' sy' hdet
    intro ox oy mo h hlen hpin hlast
    rw [halfLoop_step_detect hbox hok hdet] at h
    simp only [Except.ok.injEq, Prod.mk.injEq] at h
    rw [← h.1, ← h.2.1]
    exact ⟨PinL_extend hlen hpin hlast hbox, by simp [hlen]⟩
  | case3 px py i sx sy m hbox u v m' hok =>
    rename_i θ px' py' sx' sy' hdet hbrk
    intro ox oy mo h hlen hpin hlast
    rw [halfLoop_step_break hbox hok hdet hbrk] at h
    simp only [Except.ok.injEq, Prod.mk.injEq] at h
    rw [← h.1, ← h.2.1]
    exact ⟨PinL_extend hlen hpin hlast hbox, by simp [hlen]⟩
  | case4 px py i sx sy m hbox u v m' hok =>
    rename_i θ px' py' sx' sy' hdet hbrk ih
    intro ox oy mo h hlen hpin hlast
    rw [halfLoop_step_rec hbox hok hdet hbrk] at h
    refine ih h (show (sx ++ [px + sign * S.dr * Real.cos (atan2 v u)]).length =
        (sy ++ [py + sign * S.dr * Real.sin (atan2 v u)]).length by simp [hlen])
      (PinL_extend hlen hpin hlast hbox) (Or.inr ⟨?_, ?_⟩)
    · exact List.getLast?_concat _
    · exact List.getLast?_concat _
  | case5 px py i sx sy m hbox =>
    intro ox oy mo h hlen hpin hlast
    rw [halfLoop_guard_false hbox] at h
    simp only [Except.ok.injEq, Prod.mk.injEq] at h
    rw [← h.1, ← h.2.1]
    exact ⟨hpin, hlen⟩

/-! ### Grid preconditions -/

lemma regular_mono {S : Streamlines} (hS : RegularGrid S) : MonoGrid S := by
  obtain ⟨hnx, hny, hdx, hdy, hx, hy⟩ := hS
  refine ⟨hnx, hny, ?_, ?_⟩
  · intro k l hkl hl
    rw [hx k (by omega), hx l hl]
    have hc : (k : ℝ) < (l : ℝ) := by exact_mod_cast hkl
    have := mul_lt_mul_of_pos_right hc hdx
    linarith
  · intro k l hkl hl
    rw [hy k (by omega), hy l hl]
    have hc : (k : ℝ) < (l : ℝ) := by exact_mod_cast hkl
    have := mul_lt_mul_of_pos_right hc hdy
    linarith

lemma seed_inBox {S : Streamlines} (hM : MonoGrid S) {j i : ℕ}
    (hi1 : 0 < i) (hi2 : i < S.nx - 1) (hj1 : 0 < j) (hj2 : j < S.ny - 1) :
    S.inBox (S.x i) (S.y j) := by
  obtain ⟨hnx, hny, hxm, hym⟩ := hM
  exact ⟨hxm 0 i hi1 (by omega), hxm i (S.nx - 1) hi2 (by omega),
    hym 0 j hj1 (by omega), hym j (S.ny - 1) hj2 (by omega)⟩

lemma uncovered_interior {S : Streamlines} {m : Mask} (hle : maskLe S.initMask m) {j i : ℕ}
    (hj : j < S.ny) (hi : i < S.nx) (hf : m j i = false) :
    0 < j ∧ j < S.ny - 1 ∧ 0 < i ∧ i < S.nx - 1 := by
  have hinit : S.initMask j i = false := by
    cases him : S.initMask j i with
    | false => rfl
    | true => rw [hle j i him] at hf; exact absurd hf (by simp)
  unfold Streamlines.initMask at hinit
  simp only [Bool.or_eq_false_iff, decide_eq_false_iff_not] at hinit
  obtain ⟨⟨⟨⟨hj0, hjn⟩, hi0⟩, hin⟩, -⟩ := hinit
  omega


/-! ### Streamline assembly and the seeding loop -/

lemma makeStreamline_cases {S : Streamlines} {x0 y0 : ℝ} {m : Mask}
    {sl : List ℝ × List ℝ} {m2 : Mask} (h : S.makeStreamline x0 y0 m = .ok (sl, m2)) :
    ∃ sx sy m1 rx ry, S.halfLoop 1 x0 y0 0 [] [] m = .ok (sx, sy, m1) ∧
      S.halfLoop (-1) x0 y0 0 [] [] m1 = .ok (rx, ry, m2) ∧
      sl = (rx.reverse ++ x0 :: sx, ry.reverse ++ y0 :: sy) := by
  unfold Streamlines.makeStreamline Streamlines.makeHalfStreamline at h
  split at h
  · exact absurd h (by simp)
  · rename_i sx sy m1 heq1
    split at h
    · exact absurd h (by simp)
    · rename_i rx ry m2' heq2
      simp only [Except.ok.injEq, Prod.mk.injEq] at h
      exact ⟨sx, sy, m1, rx, ry, heq1, h.2 ▸ heq2, h.1.symm⟩

lemma makeStreamline_mono {S : Streamlines} {x0 y0 : ℝ} {m : Mask}
    {sl : List ℝ × List ℝ} {m2 : Mask} (h : S.makeStreamline x0 y0 m = .ok (sl, m2)) :
    maskLe m m2 := by
  obtain ⟨sx, sy, m1, rx, ry, h1, h2, -⟩ := makeStreamline_cases h
  exact maskLe_trans (halfLoop_mask_mono _ _ _ _ _ _ h1) (halfLoop_mask_mono _ _ _ _ _ _ h2)

/-- One seeding iteration from an interior uncovered cell `(j, i)`
succeeds and leaves the cell itself covered (for `spacing ≥ 1` the
first interpolation call, made at the seed, marks it). -/
lemma makeStreamline_step {S : Streamlines} (hS : RegularGrid S) (hsp : 1 ≤ S.spacing)
    {m : Mask} {j i : ℕ} (hi1 : 0 < i) (hi2 : i < S.nx - 1) (hj1 : 0 < j) (hj2 : j < S.ny - 1) :
    ∃ sl m2, S.makeStreamline (S.x i) (S.y j) m = .ok (sl, m2) ∧ maskLe m m2 ∧
      m2 j i = true := by
  have hbox : S.inBox (S.x i) (S.y j) := seed_inBox (regular_mono hS) hi1 hi2 hj1 hj2
  have hok := interp_eval S hS m (S.x i) (S.y j) hbox
  have hxi : (S.x i - S.x 0) / S.dx = (i : ℝ) := by
    obtain ⟨hnx, hny, hdx, hdy, hx, hy⟩ := hS
    rw [hx i (by omega)]
    field_simp
  have hyj : (S.y j - S.y 0) / S.dy = (j : ℝ) := by
    obtain ⟨hnx, hny, hdx, hdy, hx, hy⟩ := hS
    rw [hy j (by omega)]
    field_simp
  rw [hxi, hyj] at hok
  have hfi : (⌊(i : ℝ)⌋).toNat = i := by rw [Int.floor_natCast]; exact Int.toNat_natCast i
  have hfj : (⌊(j : ℝ)⌋).toNat = j := by rw [Int.floor_natCast]; exact Int.toNat_natCast j
  rw [hfi, hfj] at hok
  have hm1 : maskUpd m ((j : ℕ) : ℤ) ((i : ℕ) : ℤ) S.spacing j i = true := by
    unfold maskUpd
    have c1 : ((j : ℤ) ≤ (j : ℤ)) := le_refl _
    have c2 : ((j : ℤ) < (j : ℤ) + S.spacing) := by
      have : (1 : ℤ) ≤ (S.spacing : ℤ) := by exact_mod_cast hsp
      omega
    have c3 : ((i : ℤ) ≤ (i : ℤ)) := le_refl _
    have c4 : ((i : ℤ) < (i : ℤ) + S.spacing) := by
      have : (1 : ℤ) ≤ (S.spacing : ℤ) := by exact_mod_cast hsp
      omega
    simp [c1, c2, c3, c4]
  obtain ⟨sx, sy, mF, hfwd, hleF⟩ := halfLoop_ok_after_interp hS hbox hok
  obtain ⟨rx, ry, mB, hbwd⟩ := halfLoop_total hS (S.x i) (S.y j) 0 [] [] mF
  have hleB := halfLoop_mask_mono _ _ _ _ _ _ hbwd
  refine ⟨(rx.reverse ++ S.x i :: sx, ry.reverse ++ S.y j :: sy), mB, ?_, ?_, ?_⟩
  · unfold Streamlines.makeStreamline Streamlines.makeHalfStreamline
    rw [hfwd]
    dsimp only
    rw [hbwd]
  · exact maskLe_trans (maskLe_upd m _ _ S.spacing)
      (maskLe_trans hleF hleB)
  · exact hleB j i (hleF j i hm1)

/-- The seeding loop terminates with a fully covered mask whenever the
fuel exceeds the number of uncovered cells: every iteration covers at
least the seeded cell. -/
lemma seedLoop_term {S : Streamlines} (hS : RegularGrid S) (hsp : 1 ≤ S.spacing) :
    ∀ (fuel : ℕ) (m : Mask), maskLe S.initMask m → uncoveredCount S m < fuel →
      ∃ sls mf, S.seedLoop fuel m = .ok (sls, mf) ∧
        ∀ j, j < S.ny → ∀ i, i < S.nx → mf j i = true := by
  intro fuel
  induction fuel with
  | zero => intro m _ hcount; omega
  | succ fuel ih =>
    intro m hle hcount
    rw [Streamlines.seedLoop]
    cases hfu : S.firstUncovered m with
    | none =>
      exact ⟨[], m, rfl, firstUncovered_none_iff.mp hfu⟩
    | some ji =>
      obtain ⟨j, i⟩ := ji
      dsimp only
      obtain ⟨hj, hi, hf, -⟩ := firstUncovered_some hfu
      obtain ⟨hj1, hj2, hi1, hi2⟩ := uncovered_interior hle hj hi hf
      obtain ⟨sl, m2, hms, hmle, hcov⟩ := makeStreamline_step hS hsp (m := m) hi1 hi2 hj1 hj2
      rw [hms]
      dsimp only
      have hlt : uncoveredCount S m2 < uncoveredCount S m := uncoveredCount_lt hmle hj hi hf hcov
      obtain ⟨sls, mf, hrec, hfull⟩ := ih m2 (maskLe_trans hle hmle) (by omega)
      rw [hrec]
      exact ⟨sl :: sls, mf, rfl, hfull⟩

/-- Every streamline in the output of the seeding loop was produced by
`_makeStreamline` from an interior uncovered grid cell, on a mask that
dominates the initial one. -/
lemma seedLoop_elements {S : Streamlines} :
    ∀ (fuel : ℕ) (m : Mask) (sls : List (List ℝ × List ℝ)) (mf : Mask),
      maskLe S.initMask m → S.seedLoop fuel m = .ok (sls, mf) →
      ∀ sl ∈ sls, ∃ j i m0 m2, maskLe S.initMask m0 ∧
        0 < j ∧ j < S.ny - 1 ∧ 0 < i ∧ i < S.nx - 1 ∧
        S.makeStreamline (S.x i) (S.y j) m0 = .ok (sl, m2) := by
  intro fuel
  induction fuel with
  | zero =>
    intro m sls mf _ h
    rw [Streamlines.seedLoop] at h
    exact absurd h (by simp)
  | succ fuel ih =>
    intro m sls mf hle h
    rw [Streamlines.seedLoop] at h
    cases hfu : S.firstUncovered m with
    | none =>
      rw [hfu] at h
      simp only [Except.ok.injEq, Prod.mk.injEq] at h
      rw [← h.1]
      intro sl hsl
      exact absurd hsl (by simp)
    | some ji =>
      obtain ⟨j, i⟩ := ji
      rw [hfu] at h
      dsimp only at h
      cases hms : S.makeStreamline (S.x i) (S.y j) m with
      | error e => rw [hms] at h; exact absurd h (by simp)
      | ok slm =>
        obtain ⟨sl0, m2⟩ := slm
        rw [hms] at h
        dsimp only at h
        cases hrec : S.seedLoop fuel m2 with
        | error e => rw [hrec] at h; exact absurd h (by simp)
        | ok slsmf =>
          obtain ⟨sls', mf'⟩ := slsmf
          rw [hrec] at h
          simp only [Except.ok.injEq, Prod.mk.injEq] at h
          obtain ⟨hsls, -⟩ := h
          obtain ⟨hj, hi, hf, -⟩ := firstUncovered_some hfu
          obtain ⟨hj1, hj2, hi1, hi2⟩ := uncovered_interior hle hj hi hf
          intro sl hsl
          rw [← hsls] at hsl
          rcases List.mem_cons.mp hsl with rfl | hmem
          · exact ⟨j, i, m, m2, hle, hj1, hj2, hi1, hi2, hms⟩
          · exact ih m2 sls' mf' (maskLe_trans hle (makeStreamline_mono hms)) hrec sl hmem


/-- Reassembling `reversed backward ++ [seed] ++ forward`: every point
except possibly the first and the last lies strictly inside the box. -/
lemma assemble_pin {S : Streamlines} {x0 y0 : ℝ} {rx ry sx sy : List ℝ}
    (hbox : S.inBox x0 y0) (hlr : rx.length = ry.length) (hls : sx.length = sy.length)
    (hpr : PinL S rx ry) (hps : PinL S sx sy) :
    ∀ k, 0 < k → k + 1 < (rx.reverse ++ x0 :: sx).length →
      S.inBox ((rx.reverse ++ x0 :: sx).getD k 0) ((ry.reverse ++ y0 :: sy).getD k 0) := by
  intro k hk0 hk1
  rw [List.length_append, List.length_reverse, List.length_cons] at hk1
  rcases lt_trichotomy k rx.length with h | h | h
  · rw [List.getD_append _ _ _ _ (by simpa using h),
        List.getD_append _ _ _ _ (by rw [List.length_reverse, ← hlr]; exact h)]
    have e1 : rx.reverse.getD k 0 = rx.getD (rx.length - 1 - k) 0 := by
      rw [List.getD_eq_getElem _ _ (by simpa using h),
          List.getD_eq_getElem _ _ (by omega : rx.length - 1 - k < rx.length)]
      rw [List.getElem_reverse]
    have e2 : ry.reverse.getD k 0 = ry.getD (ry.length - 1 - k) 0 := by
      rw [List.getD_eq_getElem _ _ (by rw [List.length_reverse, ← hlr]; exact h),
          List.getD_eq_getElem _ _ (by omega : ry.length - 1 - k < ry.length)]
      rw [List.getElem_reverse]
    have e3 : ry.getD (ry.length - 1 - k) 0 = ry.getD (rx.length - 1 - k) 0 := by rw [hlr]
    rw [e1, e2, e3]
    exact hpr (rx.length - 1 - k) (by omega)
  · rw [List.getD_append_right _ _ _ _ (by simp [h]),
        List.getD_append_right _ _ _ _ (by simp [← hlr, h])]
    rw [List.length_reverse, List.length_reverse, ← hlr, h, Nat.sub_self]
    rw [List.getD_cons_zero, List.getD_cons_zero]
    exact hbox
  · rw [List.getD_append_right _ _ _ _ (by simp; omega),
        List.getD_append_right _ _ _ _ (by simp [← hlr]; omega)]
    rw [List.length_reverse, List.length_reverse, ← hlr]
    rw [show k - rx.length = (k - rx.length - 1) + 1 by omega]
    rw [List.getD_cons_succ, List.getD_cons_succ]
    exact hps (k - rx.length - 1) (by omega)


/-! ### Concrete evaluation of the demonstration configurations -/

lemma demo_dx (sp mL : ℕ) : (demoCfg sp mL).dx = 1 := by
  simp [Streamlines.dx, demoCfg]
  norm_num

lemma demo_dy (sp mL : ℕ) : (demoCfg sp mL).dy = 1 := by
  simp [Streamlines.dy, demoCfg]
  norm_num

lemma demo_dr (sp mL : ℕ) : (demoCfg sp mL).dr = 1 := by
  rw [Streamlines.dr, demo_dx, demo_dy]
  have hres : (demoCfg sp mL).res = 1 := rfl
  rw [hres]
  norm_num

lemma demo_initMask (sp mL : ℕ) : (demoCfg sp mL).initMask = borderMask := by
  funext j i
  have h1 : ((1 : ℝ) = 0) = False := by norm_num
  have h2 : (4 : ℕ) - 1 = 3 := by norm_num
  simp only [Streamlines.initMask, demoCfg, borderMask, h1, h2, false_and, decide_False,
    Bool.and_false, Bool.or_false]

lemma demo_inBox (sp mL : ℕ) (px py : ℝ) :
    (demoCfg sp mL).inBox px py ↔ 0 < px ∧ px < 3 ∧ 0 < py ∧ py < 3 := by
  simp [Streamlines.inBox, demoCfg]

lemma atan2_zero_one : atan2 0 1 = 0 := by
  unfold atan2
  have h : (⟨1, 0⟩ : ℂ) = 1 := by
    apply Complex.ext <;> simp
  rw [h, Complex.arg_one]

lemma demo_aget_u (sp mL : ℕ) {j i : ℕ} (hj : j < 4) (hi : i < 4) :
    aget 4 4 (demoCfg sp mL).u (j : ℤ) (i : ℤ) = .ok 1 := by
  rw [aget_ok _ hj hi]
  rfl

lemma demo_aget_v (sp mL : ℕ) {j i : ℕ} (hj : j < 4) (hi : i < 4) :
    aget 4 4 (demoCfg sp mL).v (j : ℤ) (i : ℤ) = .ok 0 := by
  rw [aget_ok _ hj hi]
  rfl

lemma demo_interp_int (sp mL : ℕ) (m : Mask) (a b : ℕ)
    (ha3 : a < 3) (hb3 : b < 3) :
    (demoCfg sp mL).interp m (a : ℝ) (b : ℝ) = .ok (1, 0, maskUpd m (b : ℤ) (a : ℤ) sp) := by
  have hx0 : (demoCfg sp mL).x 0 = 0 := by simp [demoCfg]
  have hy0 : (demoCfg sp mL).y 0 = 0 := by simp [demoCfg]
  have hiR : ((a : ℝ) - (demoCfg sp mL).x 0) / (demoCfg sp mL).dx = (a : ℝ) := by
    rw [hx0, demo_dx]; ring
  have hjR : ((b : ℝ) - (demoCfg sp mL).y 0) / (demoCfg sp mL).dy = (b : ℝ) := by
    rw [hy0, demo_dy]; ring
  have hca : ((a : ℤ) + 1) = ((a + 1 : ℕ) : ℤ) := by push_cast; ring
  have hcb : ((b : ℤ) + 1) = ((b + 1 : ℕ) : ℤ) := by push_cast; ring
  have hnx : (demoCfg sp mL).nx = 4 := rfl
  have hny : (demoCfg sp mL).ny = 4 := rfl
  have hsp : (demoCfg sp mL).spacing = sp := rfl
  have gu00 : aget 4 4 (demoCfg sp mL).u (b : ℤ) (a : ℤ) = .ok 1 :=
    demo_aget_u sp mL (by omega) (by omega)
  have gu01 : aget 4 4 (demoCfg sp mL).u (b : ℤ) ((a : ℤ) + 1) = .ok 1 := by
    rw [hca]; exact demo_aget_u sp mL (by omega) (by omega)
  have gu10 : aget 4 4 (demoCfg sp mL).u ((b : ℤ) + 1) (a : ℤ) = .ok 1 := by
    rw [hcb]; exact demo_aget_u sp mL (by omega) (by omega)
  have gu11 : aget 4 4 (demoCfg sp mL).u ((b : ℤ) + 1) ((a : ℤ) + 1) = .ok 1 := by
    rw [hca, hcb]; exact demo_aget_u sp mL (by omega) (by omega)
  have gv00 : aget 4 4 (demoCfg sp mL).v (b : ℤ) (a : ℤ) = .ok 0 :=
    demo_aget_v sp mL (by omega) (by omega)
  have gv01 : aget 4 4 (demoCfg sp mL).v (b : ℤ) ((a : ℤ) + 1) = .ok 0 := by
    rw [hca]; exact demo_aget_v sp mL (by omega) (by omega)
  have gv10 : aget 4 4 (demoCfg sp mL).v ((b : ℤ) + 1) (a : ℤ) = .ok 0 := by
    rw [hcb]; exact demo_aget_v sp mL (by omega) (by omega)
  have gv11 : aget 4 4 (demoCfg sp mL).v ((b : ℤ) + 1) ((a : ℤ) + 1) = .ok 0 := by
    rw [hca, hcb]; exact demo_aget_v sp mL (by omega) (by omega)
  simp only [Streamlines.interp, hnx, hny, hsp, hiR, hjR, truncInt_natCast,
    gu00, gu01, gu10, gu11, gv00, gv01, gv10, gv11, Int.fract_natCast]
  norm_num

lemma demo_interp_one_one (sp mL : ℕ) (m : Mask) :
    (demoCfg sp mL).interp m 1 1 = .ok (1, 0, maskUpd m 1 1 sp) := by
  simpa using demo_interp_int sp mL m 1 1 (by norm_num) (by norm_num)

lemma demo_interp_two_one (sp mL : ℕ) (m : Mask) :
    (demoCfg sp mL).interp m 2 1 = .ok (1, 0, maskUpd m 1 2 sp) := by
  simpa using demo_interp_int sp mL m 2 1 (by norm_num) (by norm_num)

lemma demo_forward (m : Mask) :
    (demoCfg 2 2).halfLoop 1 1 1 0 [] [] m =
      .ok ([2, 3], [1, 1], maskUpd (maskUpd m 1 1 2) 1 2 2) := by
  have hbox : (demoCfg 2 2).inBox 1 1 := by rw [demo_inBox]; norm_num
  have hbox2 : (demoCfg 2 2).inBox 2 1 := by rw [demo_inBox]; norm_num
  have hdl : (demoCfg 2 2).detectLoops = false := rfl
  have hml : (demoCfg 2 2).maxLen = 2 := rfl
  rw [Streamlines.halfLoop, if_pos hbox, demo_interp_one_one]
  simp only [atan2_zero_one, Real.cos_zero, Real.sin_zero, demo_dr, hdl, hml, Bool.false_and,
    Bool.false_eq_true, if_false, mul_one, mul_zero, add_zero]
  norm_num
  rw [Streamlines.halfLoop, if_pos hbox2, demo_interp_two_one]
  simp only [atan2_zero_one, Real.cos_zero, Real.sin_zero, demo_dr, hdl, hml, Bool.false_and,
    Bool.false_eq_true, if_false, mul_one, mul_zero, add_zero]
  norm_num

lemma demo_backward (m : Mask) :
    (demoCfg 2 2).halfLoop (-1) 1 1 0 [] [] m =
      .ok ([0], [1], maskUpd m 1 1 2) := by
  have hbox : (demoCfg 2 2).inBox 1 1 := by rw [demo_inBox]; norm_num
  have hdl : (demoCfg 2 2).detectLoops = false := rfl
  have hml : (demoCfg 2 2).maxLen = 2 := rfl
  rw [Streamlines.halfLoop, if_pos hbox, demo_interp_one_one]
  simp only [atan2_zero_one, Real.cos_zero, Real.sin_zero, demo_dr, hdl, hml, Bool.false_and,
    Bool.false_eq_true, if_false, mul_one, mul_zero, add_zero]
  norm_num
  rw [Streamlines.halfLoop, if_neg]
  rw [demo_inBox]
  norm_num

lemma demo_makeStreamline (m : Mask) :
    (demoCfg 2 2).makeStreamline 1 1 m =
      .ok (([0, 1, 2, 3], [1, 1, 1, 1]),
        maskUpd (maskUpd (maskUpd m 1 1 2) 1 2 2) 1 1 2) := by
  unfold Streamlines.makeStreamline Streamlines.makeHalfStreamline
  rw [demo_forward]
  dsimp only
  rw [demo_backward]
  dsimp only
  simp

lemma demo_first_borderMask : (demoCfg 2 2).firstUncovered borderMask = some (1, 1) := by
  decide

lemma demo_first_full :
    (demoCfg 2 2).firstUncovered
      (maskUpd (maskUpd (maskUpd borderMask 1 1 2) 1 2 2) 1 1 2) = none := by
  decide

/-- Full evaluation of the demonstration run (`spacing = 2`,
`maxLen = 2`): a single streamline whose endpoints touch / leave the
bounding box and which exceeds `maxLen` points. -/
lemma demo_result :
    (demoCfg 2 2).result = .ok [([0, 1, 2, 3], [1, 1, 1, 1])] := by
  unfold Streamlines.result Streamlines.run
  rw [demo_initMask]
  rw [Streamlines.seedLoop]
  rw [demo_first_borderMask]
  dsimp only
  have hx1 : (demoCfg 2 2).x 1 = 1 := by simp [demoCfg]
  have hy1 : (demoCfg 2 2).y 1 = 1 := by simp [demoCfg]
  rw [hx1, hy1, demo_makeStreamline]
  dsimp only
  rw [show (demoCfg 2 2).ny * (demoCfg 2 2).nx = 15 + 1 from rfl]
  rw [Streamlines.seedLoop]
  rw [demo_first_full]
  rfl

lemma maskUpd_zero (m : Mask) (j i : ℤ) : maskUpd m j i 0 = m := by
  funext r c
  unfold maskUpd
  have h1 : (decide (j ≤ (r : ℤ)) && decide ((r : ℤ) < j + ((0 : ℕ) : ℤ))) = false := by
    by_cases h : j ≤ (r : ℤ)
    · have h2 : ¬((r : ℤ) < j + ((0 : ℕ) : ℤ)) := by push_cast; omega
      simp [h2]
    · simp [h]
  rw [h1]
  simp

lemma demo0_forward (m : Mask) :
    (demoCfg 0 100).halfLoop 1 1 1 0 [] [] m = .ok ([2, 3], [1, 1], m) := by
  have hbox : (demoCfg 0 100).inBox 1 1 := by rw [demo_inBox]; norm_num
  have hbox2 : (demoCfg 0 100).inBox 2 1 := by rw [demo_inBox]; norm_num
  have hdl : (demoCfg 0 100).detectLoops = false := rfl
  have hml : (demoCfg 0 100).maxLen = 100 := rfl
  rw [Streamlines.halfLoop, if_pos hbox, demo_interp_one_one, maskUpd_zero]
  simp only [atan2_zero_one, Real.cos_zero, Real.sin_zero, demo_dr, hdl, hml, Bool.false_and,
    Bool.false_eq_true, if_false, mul_one, mul_zero, add_zero]
  norm_num
  rw [Streamlines.halfLoop, if_pos hbox2, demo_interp_two_one, maskUpd_zero]
  simp only [atan2_zero_one, Real.cos_zero, Real.sin_zero, demo_dr, hdl, hml, Bool.false_and,
    Bool.false_eq_true, if_false, mul_one, mul_zero, add_zero]
  norm_num
  rw [Streamlines.halfLoop, if_neg]
  rw [demo_inBox]
  norm_num

lemma demo0_backward (m : Mask) :
    (demoCfg 0 100).halfLoop (-1) 1 1 0 [] [] m = .ok ([0], [1], m) := by
  have hbox : (demoCfg 0 100).inBox 1 1 := by rw [demo_inBox]; norm_num
  have hdl : (demoCfg 0 100).detectLoops = false := rfl
  have hml : (demoCfg 0 100).maxLen = 100 := rfl
  rw [Streamlines.halfLoop, if_pos hbox, demo_interp_one_one, maskUpd_zero]
  simp only [atan2_zero_one, Real.cos_zero, Real.sin_zero, demo_dr, hdl, hml, Bool.false_and,
    Bool.false_eq_true, if_false, mul_one, mul_zero, add_zero]
  norm_num
  rw [Streamlines.halfLoop, if_neg]
  rw [demo_inBox]
  norm_num

lemma demo0_makeStreamline (m : Mask) :
    (demoCfg 0 100).makeStreamline 1 1 m = .ok (([0, 1, 2, 3], [1, 1, 1, 1]), m) := by
  unfold Streamlines.makeStreamline Streamlines.makeHalfStreamline
  rw [demo0_forward]
  dsimp only
  rw [demo0_backward]
  dsimp only
  simp

lemma demo0_first : (demoCfg 0 100).firstUncovered borderMask = some (1, 1) := by
  decide

/-- With `spacing = 0` the interpolation marks an empty block, the
coverage mask never changes, the same seed is selected forever, and
the seeding loop exhausts any amount of fuel. -/
lemma demo0_seedLoop (fuel : ℕ) :
    (demoCfg 0 100).seedLoop fuel borderMask = .error .outOfFuel := by
  induction fuel with
  | zero => rfl
  | succ n ih =>
    rw [Streamlines.seedLoop, demo0_first]
    dsimp only
    have hx1 : (demoCfg 0 100).x 1 = 1 := by simp [demoCfg]
    have hy1 : (demoCfg 0 100).y 1 = 1 := by simp [demoCfg]
    rw [hx1, hy1, demo0_makeStreamline]
    dsimp only
    rw [ih]


lemma demo_regular (sp mL : ℕ) : RegularGrid (demoCfg sp mL) := by
  refine ⟨by norm_num [demoCfg], by norm_num [demoCfg], ?_, ?_, ?_, ?_⟩
  · rw [demo_dx]; norm_num
  · rw [demo_dy]; norm_num
  · intro k hk
    rw [demo_dx]
    simp [demoCfg]
  · intro k hk
    rw [demo_dy]
    simp [demoCfg]

lemma demo_mono (sp mL : ℕ) : MonoGrid (demoCfg sp mL) := regular_mono (demo_regular sp mL)

/-! ### The claims -/

/-- C1: for every grid/field input satisfying the preconditions
(monotonic regularly spaced coordinates, matching shapes at least 2×2)
and `spacing ≥ 1`, the generator's outer seeding loop terminates (the
fuelled loop returns a value without exhausting its fuel and without
raising), and on exit every cell of the coverage mask is true. -/
theorem C1_seeding_terminates_with_full_coverage (S : Streamlines)
    (hS : RegularGrid S) (hsp : 1 ≤ S.spacing) :
    ∃ sls mf, Streamlines.run S = .ok (sls, mf) ∧
      ∀ j, j < S.ny → ∀ i, i < S.nx → mf j i = true := by
  unfold Streamlines.run
  have hcount : uncoveredCount S S.initMask < S.ny * S.nx + 1 :=
    Nat.lt_succ_of_le (uncoveredCount_le _)
  exact seedLoop_term hS hsp _ _ (maskLe_refl _) hcount

/-- Witness for C1 at the concrete 4×4 configuration. -/
theorem C1_witness :
    ∃ sls mf, Streamlines.run (demoCfg 2 2) = .ok (sls, mf) ∧
      ∀ j, j < (demoCfg 2 2).ny → ∀ i, i < (demoCfg 2 2).nx → mf j i = true :=
  C1_seeding_terminates_with_full_coverage (demoCfg 2 2) (demo_regular 2 2) (by norm_num [demoCfg])

/-- C4: the coverage mask is monotone — an interpolation call (the only
operation writing the mask) never resets a true cell, so the covered
count is non-decreasing after every interpolation call, and the
iteration step launched from the selected uncovered seed strictly
increases the covered count (for `spacing ≥ 1`). -/
theorem C4_coverage_monotone (S : Streamlines) (hS : RegularGrid S) (hsp : 1 ≤ S.spacing) :
    (∀ (m : Mask) (px py u v : ℝ) (m' : Mask), S.interp m px py = .ok (u, v, m') →
      maskLe m m' ∧ coveredCount S m ≤ coveredCount S m') ∧
    (∀ (m : Mask) (j i : ℕ), maskLe S.initMask m → S.firstUncovered m = some (j, i) →
      ∃ sl m2, S.makeStreamline (S.x i) (S.y j) m = .ok (sl, m2) ∧
        coveredCount S m < coveredCount S m2) := by
  constructor
  · intro m px py u v m' h
    exact ⟨interp_mask_mono h, coveredCount_mono (interp_mask_mono h)⟩
  · intro m j i hle hfu
    obtain ⟨hj, hi, hf, -⟩ := firstUncovered_some hfu
    obtain ⟨hj1, hj2, hi1, hi2⟩ := uncovered_interior hle hj hi hf
    obtain ⟨sl, m2, hms, hmle, hcov⟩ := makeStreamline_step hS hsp (m := m) hi1 hi2 hj1 hj2
    exact ⟨sl, m2, hms, coveredCount_lt hmle hj hi hf hcov⟩

/-- Witness for C4 at the concrete 4×4 configuration. -/
theorem C4_witness :
    (∀ (m : Mask) (px py u v : ℝ) (m' : Mask),
      (demoCfg 2 2).interp m px py = .ok (u, v, m') →
      maskLe m m' ∧ coveredCount (demoCfg 2 2) m ≤ coveredCount (demoCfg 2 2) m') ∧
    (∀ (m : Mask) (j i : ℕ), maskLe (demoCfg 2 2).initMask m →
      (demoCfg 2 2).firstUncovered m = some (j, i) →
      ∃ sl m2, (demoCfg 2 2).makeStreamline ((demoCfg 2 2).x i) ((demoCfg 2 2).y j) m =
          .ok (sl, m2) ∧
        coveredCount (demoCfg 2 2) m < coveredCount (demoCfg 2 2) m2) :=
  C4_coverage_monotone (demoCfg 2 2) (demo_regular 2 2) (by norm_num [demoCfg])

/-- C7: whenever the coverage mask still has an uncovered cell, the
seed chosen for the next streamline is the grid point `(x[i], y[j])`
of the first uncovered cell `(j, i)` in row-major scan order (rows
outer, columns inner), and the streamline grown from it is the one
appended next. -/
theorem C7_seed_is_first_uncovered_row_major (S : Streamlines) (m : Mask) (j0 i0 : ℕ)
    (hj0 : j0 < S.ny) (hi0 : i0 < S.nx) (hunc : m j0 i0 = false) :
    ∃ j i, S.firstUncovered m = some (j, i) ∧ j < S.ny ∧ i < S.nx ∧ m j i = false ∧
      (∀ j' i', j' < S.ny → i' < S.nx → m j' i' = false → j < j' ∨ (j = j' ∧ i ≤ i')) ∧
      ∀ fuel sls mf, S.seedLoop (fuel + 1) m = .ok (sls, mf) →
        ∃ sl m2, S.makeStreamline (S.x i) (S.y j) m = .ok (sl, m2) ∧ sls.head? = some sl := by
  cases hfu : S.firstUncovered m with
  | none =>
    have := firstUncovered_none_iff.mp hfu j0 hj0 i0 hi0
    rw [hunc] at this
    exact absurd this (by simp)
  | some ji =>
    obtain ⟨j, i⟩ := ji
    obtain ⟨hj, hi, hf, hmin⟩ := firstUncovered_some hfu
    refine ⟨j, i, rfl, hj, hi, hf, hmin, ?_⟩
    intro fuel sls mf h
    rw [Streamlines.seedLoop, hfu] at h
    dsimp only at h
    cases hms : S.makeStreamline (S.x i) (S.y j) m with
    | error e => rw [hms] at h; exact absurd h (by simp)
    | ok slm =>
      obtain ⟨sl, m2⟩ := slm
      rw [hms] at h
      dsimp only at h
      cases hrec : S.seedLoop fuel m2 with
      | error e => rw [hrec] at h; exact absurd h (by simp)
      | ok slsmf =>
        obtain ⟨sls', mf'⟩ := slsmf
        rw [hrec] at h
        simp only [Except.ok.injEq, Prod.mk.injEq] at h
        refine ⟨sl, m2, rfl, ?_⟩
        rw [← h.1]
        rfl

/-- Witness for C7: on the initial border mask of the 4×4 demo
configuration, cell (1, 1) is uncovered. -/
theorem C7_witness :
    ∃ j i, (demoCfg 2 2).firstUncovered borderMask = some (j, i) ∧
      j < (demoCfg 2 2).ny ∧ i < (demoCfg 2 2).nx ∧ borderMask j i = false ∧
      (∀ j' i', j' < (demoCfg 2 2).ny → i' < (demoCfg 2 2).nx → borderMask j' i' = false →
        j < j' ∨ (j = j' ∧ i ≤ i')) ∧
      ∀ fuel sls mf, (demoCfg 2 2).seedLoop (fuel + 1) borderMask = .ok (sls, mf) →
        ∃ sl m2, (demoCfg 2 2).makeStreamline ((demoCfg 2 2).x i) ((demoCfg 2 2).y j)
            borderMask = .ok (sl, m2) ∧ sls.head? = some sl :=
  C7_seed_is_first_uncovered_row_major (demoCfg 2 2) borderMask 1 1
    (by decide) (by decide) (by decide)


/-- C5: for every point `(px, py)` strictly inside the bounding box of
a valid grid, `_interp` returns for U exactly the area-weighted sum
`U[j,i]·(1−ai)(1−aj) + U[j,i+1]·ai(1−aj) + U[j+1,i]·(1−ai)aj + U[j+1,i+1]·ai·aj`
with `i = ⌊(px−x0)/dx⌋` and `ai = (px−x0)/dx mod 1` (and analogously
for V and for the y axis). -/
theorem C5_bilinear_interpolation_formula (S : Streamlines) (hS : RegularGrid S)
    (m : Mask) (px py : ℝ) (hin : S.inBox px py) :
    S.interp m px py = .ok
      (S.u (⌊(py - S.y 0) / S.dy⌋.toNat) (⌊(px - S.x 0) / S.dx⌋.toNat) *
          (1 - Int.fract ((px - S.x 0) / S.dx)) * (1 - Int.fract ((py - S.y 0) / S.dy)) +
        S.u (⌊(py - S.y 0) / S.dy⌋.toNat) (⌊(px - S.x 0) / S.dx⌋.toNat + 1) *
          Int.fract ((px - S.x 0) / S.dx) * (1 - Int.fract ((py - S.y 0) / S.dy)) +
        S.u (⌊(py - S.y 0) / S.dy⌋.toNat + 1) (⌊(px - S.x 0) / S.dx⌋.toNat) *
          (1 - Int.fract ((px - S.x 0) / S.dx)) * Int.fract ((py - S.y 0) / S.dy) +
        S.u (⌊(py - S.y 0) / S.dy⌋.toNat + 1) (⌊(px - S.x 0) / S.dx⌋.toNat + 1) *
          Int.fract ((px - S.x 0) / S.dx) * Int.fract ((py - S.y 0) / S.dy),
       S.v (⌊(py - S.y 0) / S.dy⌋.toNat) (⌊(px - S.x 0) / S.dx⌋.toNat) *
          (1 - Int.fract ((px - S.x 0) / S.dx)) * (1 - Int.fract ((py - S.y 0) / S.dy)) +
        S.v (⌊(py - S.y 0) / S.dy⌋.toNat) (⌊(px - S.x 0) / S.dx⌋.toNat + 1) *
          Int.fract ((px - S.x 0) / S.dx) * (1 - Int.fract ((py - S.y 0) / S.dy)) +
        S.v (⌊(py - S.y 0) / S.dy⌋.toNat + 1) (⌊(px - S.x 0) / S.dx⌋.toNat) *
          (1 - Int.fract ((px - S.x 0) / S.dx)) * Int.fract ((py - S.y 0) / S.dy) +
        S.v (⌊(py - S.y 0) / S.dy⌋.toNat + 1) (⌊(px - S.x 0) / S.dx⌋.toNat + 1) *
          Int.fract ((px - S.x 0) / S.dx) * Int.fract ((py - S.y 0) / S.dy),
       maskUpd m ((⌊(py - S.y 0) / S.dy⌋.toNat : ℕ) : ℤ)
         ((⌊(px - S.x 0) / S.dx⌋.toNat : ℕ) : ℤ) S.spacing) :=
  interp_eval S hS m px py hin

/-- Witness for C5 at the concrete 4×4 configuration and the point (3/2, 3/2). -/
theorem C5_witness :
    (demoCfg 2 2).inBox (3 / 2) (3 / 2) ∧
      ∃ u v m', (demoCfg 2 2).interp borderMask (3 / 2) (3 / 2) = .ok (u, v, m') := by
  have hin : (demoCfg 2 2).inBox (3 / 2) (3 / 2) := by rw [demo_inBox]; norm_num
  exact ⟨hin, _, _, _,
    C5_bilinear_interpolation_formula (demoCfg 2 2) (demo_regular 2 2) borderMask _ _ hin⟩

/-- C6: for every point satisfying the strictly-inside-bounding-box
loop guard, the integer indices computed by `_interp` satisfy
`i + 1 ≤ nx − 1` and `j + 1 ≤ ny − 1`, so no array access indexes past
the last grid row or column — interpolation never raises, and the
half-streamline extension loop never raises from any state. -/
theorem C6_interp_indices_in_bounds (S : Streamlines) (hS : RegularGrid S) :
    (∀ px py : ℝ, S.inBox px py →
      ⌊(px - S.x 0) / S.dx⌋.toNat + 1 ≤ S.nx - 1 ∧
      ⌊(py - S.y 0) / S.dy⌋.toNat + 1 ≤ S.ny - 1 ∧
      ∀ m : Mask, ∃ u v m', S.interp m px py = .ok (u, v, m')) ∧
    (∀ (sign px py : ℝ) (i : ℕ) (sx sy : List ℝ) (m : Mask),
      ∃ ox oy mo, S.halfLoop sign px py i sx sy m = .ok (ox, oy, mo)) := by
  obtain ⟨hnx, hny, hdx, hdy, hx, hy⟩ := hS
  constructor
  · intro px py hin
    obtain ⟨h1, h2, h3, h4⟩ := hin
    obtain ⟨-, hib⟩ := axis_idx hdx hnx hx h1 h2
    obtain ⟨-, hjb⟩ := axis_idx hdy hny hy h3 h4
    exact ⟨hib, hjb, fun m =>
      interp_ok_of_box ⟨hnx, hny, hdx, hdy, hx, hy⟩ m px py ⟨h1, h2, h3, h4⟩⟩
  · intro sign px py i sx sy m
    exact halfLoop_total ⟨hnx, hny, hdx, hdy, hx, hy⟩ px py i sx sy m

/-- Witness for C6 at the concrete 4×4 configuration. -/
theorem C6_witness :
    (∀ px py : ℝ, (demoCfg 2 2).inBox px py →
      ⌊(px - (demoCfg 2 2).x 0) / (demoCfg 2 2).dx⌋.toNat + 1 ≤ (demoCfg 2 2).nx - 1 ∧
      ⌊(py - (demoCfg 2 2).y 0) / (demoCfg 2 2).dy⌋.toNat + 1 ≤ (demoCfg 2 2).ny - 1 ∧
      ∀ m : Mask, ∃ u v m', (demoCfg 2 2).interp m px py = .ok (u, v, m')) ∧
    (∀ (sign px py : ℝ) (i : ℕ) (sx sy : List ℝ) (m : Mask),
      ∃ ox oy mo, (demoCfg 2 2).halfLoop sign px py i sx sy m = .ok (ox, oy, mo)) :=
  C6_interp_indices_in_bounds (demoCfg 2 2) (demo_regular 2 2)

/-- C10: for strictly monotonic grid coordinates, every streamline
appended to the result contains at least 3 points in each coordinate
list: the seed lies strictly inside the box (the border ring is
pre-marked), so both half-streamlines take at least one step. -/
theorem C10_streamline_has_three_points (S : Streamlines) (hM : MonoGrid S)
    {sls : List (List ℝ × List ℝ)} (hrun : S.result = .ok sls) :
    ∀ sl ∈ sls, 3 ≤ sl.1.length ∧ 3 ≤ sl.2.length := by
  unfold Streamlines.result at hrun
  cases hr : Streamlines.run S with
  | error e => rw [hr] at hrun; exact absurd hrun (by simp [Except.map])
  | ok p =>
    obtain ⟨sls', mf⟩ := p
    rw [hr] at hrun
    obtain rfl : sls' = sls := by simpa [Except.map] using hrun
    unfold Streamlines.run at hr
    have helts := seedLoop_elements _ _ _ _ (maskLe_refl _) hr
    intro sl hsl
    obtain ⟨j, i, m0, m2, hle, hj1, hj2, hi1, hi2, hms⟩ := helts sl hsl
    have hbox : S.inBox (S.x i) (S.y j) := seed_inBox hM hi1 hi2 hj1 hj2
    obtain ⟨sx, sy, m1, rx, ry, hfwd, hbwd, hsl_eq⟩ := makeStreamline_cases hms
    obtain ⟨tx, ty, htx, hty, hlen1, hne1⟩ := halfLoop_append _ _ _ _ _ _ hfwd
    obtain ⟨tx', ty', htx', hty', hlen2, hne2⟩ := halfLoop_append _ _ _ _ _ _ hbwd
    simp only [List.nil_append] at htx hty htx' hty'
    have h1 : 1 ≤ sx.length := by
      rw [htx]
      exact List.length_pos.mpr (hne1 hbox)
    have h2 : 1 ≤ rx.length := by
      rw [htx']
      exact List.length_pos.mpr (hne2 hbox)
    have h3 : sy.length = sx.length := by rw [htx, hty]; exact hlen1.symm
    have h4 : ry.length = rx.length := by rw [htx', hty']; exact hlen2.symm
    rw [hsl_eq]
    constructor
    · simp only [List.length_append, List.length_reverse, List.length_cons]
      omega
    · simp only [List.length_append, List.length_reverse, List.length_cons]
      omega

/-- Witness for C10 at the concrete 4×4 configuration. -/
theorem C10_witness :
    3 ≤ [(0 : ℝ), 1, 2, 3].length ∧ 3 ≤ [(1 : ℝ), 1, 1, 1].length :=
  C10_streamline_has_three_points (demoCfg 2 2) (demo_mono 2 2) demo_result
    ([(0 : ℝ), 1, 2, 3], [(1 : ℝ), 1, 1, 1]) (by simp)


/-- C2 counterexample: in the concrete demonstration run the first
point of the produced streamline is `(0, 1)` whose x-coordinate equals
the grid minimum, so boundary exclusion as claimed is false — the
half-streamline appends the stepped point before re-checking the
bounding-box guard. -/
theorem C2_counterexample : ¬ BoundaryExclusion (demoCfg 2 2) := by
  intro h
  have hpt := h [([0, 1, 2, 3], [1, 1, 1, 1])] demo_result ([0, 1, 2, 3], [1, 1, 1, 1])
    (by simp) 0 (by norm_num)
  simp only [List.getD_cons_zero] at hpt
  rw [demo_inBox] at hpt
  exact lt_irrefl 0 hpt.1

/-- C2 amended: every point of every output streamline except possibly
the first and the last of the polyline lies strictly inside the grid's
bounding box (the final point of each half-streamline is appended
before the guard is re-checked and may lie on or outside the box). -/
theorem C2_amended_interior_points_strictly_inside (S : Streamlines) (hM : MonoGrid S)
    {sls : List (List ℝ × List ℝ)} (hrun : S.result = .ok sls) :
    ∀ sl ∈ sls, ∀ k, 0 < k → k + 1 < sl.1.length →
      S.inBox (sl.1.getD k 0) (sl.2.getD k 0) := by
  unfold Streamlines.result at hrun
  cases hr : Streamlines.run S with
  | error e => rw [hr] at hrun; exact absurd hrun (by simp [Except.map])
  | ok p =>
    obtain ⟨sls', mf⟩ := p
    rw [hr] at hrun
    obtain rfl : sls' = sls := by simpa [Except.map] using hrun
    unfold Streamlines.run at hr
    have helts := seedLoop_elements _ _ _ _ (maskLe_refl _) hr
    intro sl hsl
    obtain ⟨j, i, m0, m2, hle, hj1, hj2, hi1, hi2, hms⟩ := helts sl hsl
    have hbox : S.inBox (S.x i) (S.y j) := seed_inBox hM hi1 hi2 hj1 hj2
    obtain ⟨sx, sy, m1, rx, ry, hfwd, hbwd, hsl_eq⟩ := makeStreamline_cases hms
    have hemp : PinL S ([] : List ℝ) ([] : List ℝ) := fun k hk => absurd hk (by simp)
    obtain ⟨hpins, hlens⟩ := halfLoop_pin _ _ _ _ _ _ hfwd rfl hemp (Or.inl rfl)
    obtain ⟨hpinr, hlenr⟩ := halfLoop_pin _ _ _ _ _ _ hbwd rfl hemp (Or.inl rfl)
    subst hsl_eq
    intro k hk0 hk1
    exact assemble_pin hbox hlenr hlens hpinr hpins k hk0 hk1

/-- Witness for the amended C2 at the concrete 4×4 configuration: the
second point (1, 1) of the demonstration streamline is strictly inside. -/
theorem C2_witness :
    (demoCfg 2 2).inBox ([(0 : ℝ), 1, 2, 3].getD 1 0) ([(1 : ℝ), 1, 1, 1].getD 1 0) :=
  C2_amended_interior_points_strictly_inside (demoCfg 2 2) (demo_mono 2 2) demo_result
    ([(0 : ℝ), 1, 2, 3], [(1 : ℝ), 1, 1, 1]) (by simp) 1 (by norm_num) (by norm_num)

/-- C3 counterexample: with `maxLen = 2` the demonstration run produces
a streamline of 4 points, exceeding `maxLen` — each half appends its
point before testing `i > maxLen / 2`, and the seed is extra. -/
theorem C3_counterexample :
    (demoCfg 2 2).result = .ok [([0, 1, 2, 3], [1, 1, 1, 1])] ∧
      ¬ ([(0 : ℝ), 1, 2, 3].length ≤ (demoCfg 2 2).maxLen) :=
  ⟨demo_result, by norm_num [demoCfg]⟩

/-- C3 amended: each half-streamline stops once its step count exceeds
`maxLen / 2`, so it holds at most `⌊maxLen / 2⌋ + 1` points, and the
whole polyline (reversed backward + seed + forward) holds at most
`2·⌊maxLen / 2⌋ + 3` points — which can exceed `maxLen` by up to 3. -/
theorem C3_amended_length_bound (S : Streamlines)
    {sls : List (List ℝ × List ℝ)} (hrun : S.result = .ok sls) :
    ∀ sl ∈ sls, sl.1.length ≤ 2 * (S.maxLen / 2) + 3 ∧
      sl.2.length ≤ 2 * (S.maxLen / 2) + 3 := by
  unfold Streamlines.result at hrun
  cases hr : Streamlines.run S with
  | error e => rw [hr] at hrun; exact absurd hrun (by simp [Except.map])
  | ok p =>
    obtain ⟨sls', mf⟩ := p
    rw [hr] at hrun
    obtain rfl : sls' = sls := by simpa [Except.map] using hrun
    unfold Streamlines.run at hr
    have helts := seedLoop_elements _ _ _ _ (maskLe_refl _) hr
    intro sl hsl
    obtain ⟨j, i, m0, m2, hle, hj1, hj2, hi1, hi2, hms⟩ := helts sl hsl
    obtain ⟨sx, sy, m1, rx, ry, hfwd, hbwd, hsl_eq⟩ := makeStreamline_cases hms
    have hlens : sx.length ≤ 0 + (S.maxLen / 2 + 1 - 0) :=
      halfLoop_len _ _ _ _ _ _ hfwd (Nat.zero_le _)
    have hlenr : rx.length ≤ 0 + (S.maxLen / 2 + 1 - 0) :=
      halfLoop_len _ _ _ _ _ _ hbwd (Nat.zero_le _)
    obtain ⟨tx, ty, htx, hty, hlen1, -⟩ := halfLoop_append _ _ _ _ _ _ hfwd
    obtain ⟨tx', ty', htx', hty', hlen2, -⟩ := halfLoop_append _ _ _ _ _ _ hbwd
    simp only [List.nil_append] at htx hty htx' hty'
    have h3 : sy.length = sx.length := by rw [htx, hty]; exact hlen1.symm
    have h4 : ry.length = rx.length := by rw [htx', hty']; exact hlen2.symm
    subst hsl_eq
    constructor
    · simp only [List.length_append, List.length_reverse, List.length_cons]
      omega
    · simp only [List.length_append, List.length_reverse, List.length_cons]
      omega

/-- Witness for the amended C3 at the concrete 4×4 configuration
(`maxLen = 2`: the 4-point polyline is within `2·⌊2/2⌋ + 3 = 5`). -/
theorem C3_witness :
    [(0 : ℝ), 1, 2, 3].length ≤ 2 * ((demoCfg 2 2).maxLen / 2) + 3 ∧
      [(1 : ℝ), 1, 1, 1].length ≤ 2 * ((demoCfg 2 2).maxLen / 2) + 3 :=
  C3_amended_length_bound (demoCfg 2 2) demo_result
    ([(0 : ℝ), 1, 2, 3], [(1 : ℝ), 1, 1, 1]) (by simp)

/-- C8: with `spacing = 0` on a valid 4×4 grid with a nonvanishing
field, construction raises no validation error and never terminates:
the seeding loop exhausts every fuel bound, because `_interp` marks an
empty block and the same uncovered seed is selected forever. -/
theorem C8_spacing_zero_loops_forever :
    (∀ fuel, (demoCfg 0 100).seedLoop fuel (demoCfg 0 100).initMask = .error .outOfFuel) ∧
      Streamlines.run (demoCfg 0 100) = .error .outOfFuel := by
  have hinit : (demoCfg 0 100).initMask = borderMask := demo_initMask 0 100
  refine ⟨fun fuel => ?_, ?_⟩
  · rw [hinit]; exact demo0_seedLoop fuel
  · unfold Streamlines.run; rw [hinit]; exact demo0_seedLoop _

/-- C9: the core generator is deterministic — the streamline output is
a function of the grid, field and parameter inputs alone (the embedded
algorithm contains no other source of variation). -/
theorem C9_core_is_deterministic (S T : Streamlines)
    (h1 : S.nx = T.nx) (h2 : S.ny = T.ny) (h3 : S.x = T.x) (h4 : S.y = T.y)
    (h5 : S.u = T.u) (h6 : S.v = T.v) (h7 : S.res = T.res) (h8 : S.spacing = T.spacing)
    (h9 : S.maxLen = T.maxLen) (h10 : S.detectLoops = T.detectLoops) :
    S.result = T.result := by
  cases S
  cases T
  dsimp only at h1 h2 h3 h4 h5 h6 h7 h8 h9 h10
  subst h1
  subst h2
  subst h3
  subst h4
  subst h5
  subst h6
  subst h7
  subst h8
  subst h9
  subst h10
  rfl

/-- Witness for C9 at the concrete 4×4 configuration. -/
theorem C9_witness : (demoCfg 2 2).result = (demoCfg 2 2).result :=
  C9_core_is_deterministic (demoCfg 2 2) (demoCfg 2 2)
    rfl rfl rfl rfl rfl rfl rfl rfl rfl rfl

end
